import Mathlib

/-!
Shallow embedding of the Techno Playlist Finder web app (`app.py`) and proofs
about its core pipeline.

Conventions of the embedding:
* Python strings are Lean `String`s; all string algorithms are re-implemented
  structurally on `List Char` so that every definition evaluates inside the
  kernel (`decide`/`rfl`).  `str.lower()` is modelled for ASCII letters, which
  is what `Char.toLower` implements and what every domain/email in the program
  uses.
* Python regular expressions are modelled by hand-written matchers.  Each of
  the concrete patterns in `app.py` (email, URL, social-profile) is
  backtracking-free: every character class appearing before a literal is
  disjoint from that literal, so a greedy scan is exactly the regex semantics.
  `re.findall` is modelled by a left-to-right scan that restarts after each
  match (fuel `length + 1` never runs out because a successful match consumes
  at least one character).
* `dict` lookups whose shape is fixed by the code are modelled as total record
  fields; JSON values that the code coerces with `int(... or 0)` are modelled
  by `PyVal` (absent/int/string) so that the `int()` conversion can fail the
  way it does in Python.
* The worker `run_job` is modelled as a pure state-passing function.  The
  shared cancellation flag is an oracle `cancel : Nat → Bool` read at a logical
  clock that advances at every read; every mutation of the job record and
  every local result-row append is recorded in an event trace.  An exception
  escaping the worker is modelled by the `Except.error` branch carrying the
  state at the point of the raise.
-/

/-! ## Python-style string primitives -/

/-- Whitespace characters recognised by Python's `str.split()` and `\s`
(ASCII fragment). -/
def isPyWs (c : Char) : Bool :=
  c = ' ' || c = Char.ofNat 9 || c = Char.ofNat 10 || c = Char.ofNat 13 ||
  c = Char.ofNat 11 || c = Char.ofNat 12

/-- ASCII `str.lower()` on a character list. -/
def lowerL (cs : List Char) : List Char := cs.map Char.toLower

/-- ASCII `str.lower()`. -/
def pyLower (s : String) : String := String.mk (lowerL s.data)

/-- Helper for `pySplitChar`: split a character list at every occurrence of
`sep`, like Python `str.split(sep)`. -/
def splitOnCharAux (sep : Char) : List Char → List Char → List (List Char)
  | [], cur => [cur.reverse]
  | c :: rest, cur =>
    if c = sep then cur.reverse :: splitOnCharAux sep rest []
    else splitOnCharAux sep rest (c :: cur)

/-- Python `str.split(sep)` for a one-character separator: `"".split` gives
`[""]`, separators at the ends give empty fields. -/
def pySplitChar (sep : Char) (s : String) : List String :=
  (splitOnCharAux sep s.data []).map String.mk

/-- Helper for `pySplitWs`: Python's no-argument `str.split()`, which splits
on runs of whitespace and never produces empty tokens. -/
def pySplitWsAux : List Char → List Char → List (List Char)
  | [], cur => if cur.isEmpty then [] else [cur.reverse]
  | c :: rest, cur =>
    if isPyWs c then
      if cur.isEmpty then pySplitWsAux rest []
      else cur.reverse :: pySplitWsAux rest []
    else pySplitWsAux rest (c :: cur)

/-- Python `str.split()` (no argument). -/
def pySplitWs (s : String) : List String :=
  (pySplitWsAux s.data []).map String.mk

/-- Substring test on character lists, `needle in hay` for Python strings. -/
def isInfixL (n : List Char) : List Char → Bool
  | [] => n.isEmpty
  | c :: rest => n.isPrefixOf (c :: rest) || isInfixL n rest

/-- Python `needle in hay` on strings. -/
def pyInStr (needle hay : String) : Bool := isInfixL needle.data hay.data

/-- Helper for `pyReplace`: replace every occurrence of the (nonempty) pattern,
scanning left to right; `fuel` is an upper bound on the number of steps, and
`length + 1` never runs out because every step consumes at least one
character. -/
def replaceAllL (pat rep : List Char) : Nat → List Char → List Char
  | 0, cs => cs
  | _, [] => []
  | fuel + 1, c :: rest =>
    if pat.isPrefixOf (c :: rest) then
      rep ++ replaceAllL pat rep fuel ((c :: rest).drop pat.length)
    else c :: replaceAllL pat rep fuel rest

/-- Python `s.replace(pat, rep)` for a nonempty pattern. -/
def pyReplace (s pat rep : String) : String :=
  String.mk (replaceAllL pat.data rep.data (s.data.length + 1) s.data)

/-- Decimal digit value of a character, if it is a digit. -/
def digitVal (c : Char) : Option Nat :=
  if 48 ≤ c.toNat && c.toNat ≤ 57 then some (c.toNat - 48) else none

/-- Accumulate a decimal number; `none` as soon as a non-digit appears. -/
def digitsToNatAux : List Char → Nat → Option Nat
  | [], acc => some acc
  | c :: rest, acc =>
    match digitVal c with
    | some d => digitsToNatAux rest (acc * 10 + d)
    | none => none

/-- Python `int(s)` on a string: optional surrounding whitespace, optional
sign, then at least one digit; `none` models the `ValueError` raise. -/
def pyIntOfStr (s : String) : Option Int :=
  let core := ((s.data.dropWhile isPyWs).reverse.dropWhile isPyWs).reverse
  match core with
  | [] => none
  | '-' :: ds =>
    if ds.isEmpty then none else (digitsToNatAux ds 0).map (fun n => -(n : Int))
  | '+' :: ds =>
    if ds.isEmpty then none else (digitsToNatAux ds 0).map (fun n => (n : Int))
  | ds => (digitsToNatAux ds 0).map (fun n => (n : Int))

/-! ## Sorting (Python `sorted` on strings, code-point lexicographic) -/

/-- Lexicographic (code-point) order on character lists, Python's string
order. -/
def strLeL : List Char → List Char → Bool
  | [], _ => true
  | _ :: _, [] => false
  | a :: as, b :: bs =>
    if a.toNat < b.toNat then true
    else if b.toNat < a.toNat then false
    else strLeL as bs

/-- Python `a <= b` on strings. -/
def strLe (a b : String) : Bool := strLeL a.data b.data

/-- Insert into a `strLe`-sorted list, keeping it sorted. -/
def insertSortedStr (x : String) : List String → List String
  | [] => [x]
  | y :: ys => if strLe x y then x :: y :: ys else y :: insertSortedStr x ys

/-- Insertion sort by `strLe`; the order Python's `sorted` produces. -/
def sortStrings : List String → List String
  | [] => []
  | x :: xs => insertSortedStr x (sortStrings xs)

/-- The list is sorted with respect to `strLe`. -/
def isSortedStr : List String → Bool
  | [] => true
  | [_] => true
  | a :: b :: t => strLe a b && isSortedStr (b :: t)

/-- Python `sorted(set(l))`: drop duplicates, then sort. -/
def pySortedSet (l : List String) : List String := sortStrings l.dedup

/-! ## Regex models: EMAIL_RE, URL_RE and the social-profile patterns -/

/-- Character class `[a-zA-Z0-9_.+\-]` (local part of EMAIL_RE). -/
def isEmailC1 (c : Char) : Bool :=
  c.isAlphanum || c = '_' || c = '.' || c = '+' || c = '-'

/-- Character class `[a-zA-Z0-9\-]` (domain label of EMAIL_RE). -/
def isEmailC2 (c : Char) : Bool := c.isAlphanum || c = '-'

/-- Character class `[a-zA-Z0-9.\-]` (domain tail of EMAIL_RE). -/
def isEmailC3 (c : Char) : Bool := c.isAlphanum || c = '.' || c = '-'

/-- Match `EMAIL_RE = [a-zA-Z0-9_.+\-]+@[a-zA-Z0-9\-]+\.[a-zA-Z0-9.\-]+` at the
head of the list, returning the matched characters and the remainder.  Each
class is disjoint from the following literal (`@` resp. `.` is not in the
class), so greedy runs without backtracking are the exact regex semantics. -/
def matchEmailAt (cs : List Char) : Option (List Char × List Char) :=
  let a := cs.takeWhile isEmailC1
  let r1 := cs.dropWhile isEmailC1
  if a.isEmpty then none
  else
    match r1 with
    | '@' :: r2 =>
      let b := r2.takeWhile isEmailC2
      let r3 := r2.dropWhile isEmailC2
      if b.isEmpty then none
      else
        match r3 with
        | '.' :: r4 =>
          let c := r4.takeWhile isEmailC3
          let r5 := r4.dropWhile isEmailC3
          if c.isEmpty then none
          else some (a ++ '@' :: (b ++ '.' :: c), r5)
        | _ => none
    | _ => none

/-- `re.findall` driver: scan left to right, emit each match and resume after
it, otherwise advance one character.  Every matcher used here consumes at
least one character on success, so fuel `length + 1` is never exhausted. -/
def scanAll (m : List Char → Option (List Char × List Char)) :
    Nat → List Char → List String
  | 0, _ => []
  | _, [] => []
  | fuel + 1, c :: rest =>
    match m (c :: rest) with
    | some (g, r) => String.mk g :: scanAll m fuel r
    | none => scanAll m fuel rest

/-- All EMAIL_RE matches in a text, in order of occurrence. -/
def findEmails (cs : List Char) : List String :=
  scanAll matchEmailAt (cs.length + 1) cs

/-- One social-platform URL pattern
`(https?://(www\.)?HOST/CLASS+)` with optional trailing slash
(`optSlash = false` for the youtube pattern, whose class contains `/`). -/
structure SocialPat where
  host : List Char
  cls : Char → Bool
  optSlash : Bool

/-- Match the `https?://` prefix, longest alternative first. -/
def matchSchemeAt (cs : List Char) : Option (List Char × List Char) :=
  if "https://".data.isPrefixOf cs then some ("https://".data, cs.drop 8)
  else if "http://".data.isPrefixOf cs then some ("http://".data, cs.drop 7)
  else none

/-- Match `HOST/CLASS+ (/)?` of a social pattern against `r2`, where `sch` and
`www` are the already-consumed scheme and optional `www.` (both part of the
capture group). -/
def matchHostAt (p : SocialPat) (sch www r2 : List Char) :
    Option (List Char × List Char) :=
  if p.host.isPrefixOf r2 then
    let r3 := r2.drop p.host.length
    let run := r3.takeWhile p.cls
    let r4 := r3.dropWhile p.cls
    if run.isEmpty then none
    else
      let group := sch ++ www ++ p.host ++ run
      if p.optSlash then
        match r4 with
        | '/' :: r5 => some (group, r5)
        | _ => some (group, r4)
      else some (group, r4)
  else none

/-- Match a whole social pattern at the head of the list; group 1 (what the
code stores as `m[0]`) and the remainder after the full match.  `(www\.)?` is
greedy with fallback, exactly the regex behaviour. -/
def matchSocialAt (p : SocialPat) (cs : List Char) :
    Option (List Char × List Char) :=
  match matchSchemeAt cs with
  | none => none
  | some (sch, r) =>
    if "www.".data.isPrefixOf r then
      match matchHostAt p sch "www.".data (r.drop 4) with
      | some res => some res
      | none => matchHostAt p sch [] r
    else matchHostAt p sch [] r

/-- Class `[A-Za-z0-9_.]` (instagram path). -/
def clsIG (c : Char) : Bool := c.isAlphanum || c = '_' || c = '.'

/-- Class `[A-Za-z0-9_.-]` (facebook/x/twitter/soundcloud/bandcamp paths). -/
def clsFB (c : Char) : Bool := c.isAlphanum || c = '_' || c = '.' || c = '-'

/-- Class of the youtube path: alphanumerics, underscore, dot, dash, slash,
question mark, equals and ampersand. -/
def clsYT (c : Char) : Bool :=
  c.isAlphanum || c = '_' || c = '.' || c = '-' || c = '/' || c = '?' ||
  c = '=' || c = '&'

/-- The seven SOCIAL_REGEXES of `app.py`, in source order. -/
def socialPats : List SocialPat :=
  [⟨"instagram.com/".data, clsIG, true⟩,
   ⟨"facebook.com/".data, clsFB, true⟩,
   ⟨"x.com/".data, clsFB, true⟩,
   ⟨"twitter.com/".data, clsFB, true⟩,
   ⟨"soundcloud.com/".data, clsFB, true⟩,
   ⟨"bandcamp.com/".data, clsFB, true⟩,
   ⟨"youtube.com/".data, clsYT, false⟩]

/-- All matches of one social pattern in a text (the `m[0]` capture). -/
def findSocials (p : SocialPat) (cs : List Char) : List String :=
  scanAll (matchSocialAt p) (cs.length + 1) cs

/-- All social-profile URLs found by any of the seven patterns. -/
def socialFindAll (cs : List Char) : List String :=
  (socialPats.map (fun p => findSocials p cs)).flatten

/-- Character class of URL_RE: anything but whitespace, double quote, single
quote, and the angle brackets. -/
def isUrlChar (c : Char) : Bool :=
  !(isPyWs c) && c ≠ Char.ofNat 34 && c ≠ Char.ofNat 39 && c ≠ '<' && c ≠ '>'

/-- Match URL_RE (scheme `https?` followed by at least one `isUrlChar`) at the
head of the list. -/
def matchUrlAt (cs : List Char) : Option (List Char × List Char) :=
  match matchSchemeAt cs with
  | none => none
  | some (sch, r) =>
    let run := r.takeWhile isUrlChar
    let rest := r.dropWhile isUrlChar
    if run.isEmpty then none else some (sch ++ run, rest)

/-- All URL_RE matches in a text. -/
def findUrls (cs : List Char) : List String :=
  scanAll matchUrlAt (cs.length + 1) cs

/-- `extract_contacts_from_html` of `app.py`: set of EMAIL_RE matches and set
of social matches, each returned as `sorted(set(...))`. -/
def extract_contacts_from_html (html_text : String) :
    List String × List String :=
  (pySortedSet (findEmails html_text.data),
   pySortedSet (socialFindAll html_text.data))

/-- `extract_from_spotify_description` of `app.py`: emails as above, and the
sorted union of all bare URLs with all social matches. -/
def extract_from_spotify_description (desc_text : String) :
    List String × List String :=
  (pySortedSet (findEmails desc_text.data),
   pySortedSet (findUrls desc_text.data ++ socialFindAll desc_text.data))

/-! ## Domains and the contact verifier -/

/-- Character class of a URL scheme after its first letter. -/
def isSchemeChar (c : Char) : Bool :=
  c.isAlphanum || c = '+' || c = '-' || c = '.'

/-- Drop a leading `scheme:` as `urllib.parse.urlparse` does: the text before
the first `:` counts as a scheme iff it is nonempty, starts with a letter and
consists of scheme characters. -/
def dropScheme (cs : List Char) : List Char :=
  let pre := cs.takeWhile (fun c => c ≠ ':')
  if pre.length < cs.length && !pre.isEmpty &&
      (match pre with | c :: _ => c.isAlpha | [] => false) &&
      pre.all isSchemeChar then
    cs.drop (pre.length + 1)
  else cs

/-- The `netloc` of what remains: present only after `//`, ending at the first
`/`, `?` or `#`. -/
def takeNetloc (cs : List Char) : List Char :=
  match cs with
  | '/' :: '/' :: rest =>
    rest.takeWhile (fun c => c ≠ '/' && c ≠ '?' && c ≠ '#')
  | _ => []

/-- `domain_from_url` of `app.py`: lower-cased netloc with a `www.` prefix
stripped, `""` for anything that does not parse to a host. -/
def domain_from_url (u : String) : String :=
  let host := lowerL (takeNetloc (dropScheme u.data))
  if "www.".data.isPrefixOf host then String.mk (host.drop 4)
  else String.mk host

/-- The trusted-platform allow-list of `app.py`. -/
def TRUSTED_PLATFORMS : List String :=
  ["soundplate.com", "dailyplaylists.com", "groover.co", "artist.tools",
   "droptrack.com", "electronicradar.com", "imusician.pro"]

/-- The free/consumer mail-provider list of `app.py`. -/
def FREE_EMAILS : List String :=
  ["gmail.com", "outlook.com", "hotmail.com", "yahoo.com", "proton.me",
   "protonmail.com", "gmx.de", "web.de", "icloud.com", "me.com"]

/-- `verify_email` of `app.py`, line for line: same-or-subdomain / trusted
email domain first, then owner-name token match, then free-mail rejection,
then trusted source page, else false. -/
def verify_email (email source_url owner_name : String) : Bool :=
  let em_dom := pyLower ((pySplitChar '@' email).getLastD "")
  let src_dom := domain_from_url source_url
  if em_dom = src_dom ||
      (src_dom ≠ "" && ("." ++ src_dom).data.isSuffixOf em_dom.data) ||
      TRUSTED_PLATFORMS.contains em_dom then true
  else if owner_name ≠ "" &&
      (pySplitWs (pyLower owner_name)).any
        (fun tok => tok ≠ "" && isInfixL tok.data em_dom.data) then true
  else if FREE_EMAILS.contains em_dom then false
  else if TRUSTED_PLATFORMS.contains src_dom then true
  else false

/-- The verifier as the spec words it: six rules, first match wins.
1. email domain equals or is a subdomain of the source domain;
2. email domain on the trusted-platform list;
3. some whitespace token of the lower-cased owner name occurs in the email
   domain;
4. email domain on the free-mail list → untrusted;
5. source domain on the trusted-platform list;
6. otherwise untrusted. -/
def verifySpecSix (email source_url owner_name : String) : Bool :=
  let em_dom := pyLower ((pySplitChar '@' email).getLastD "")
  let src_dom := domain_from_url source_url
  if em_dom = src_dom ||
      (src_dom ≠ "" && ("." ++ src_dom).data.isSuffixOf em_dom.data) then true
  else if TRUSTED_PLATFORMS.contains em_dom then true
  else if (pySplitWs (pyLower owner_name)).any
      (fun tok => isInfixL tok.data em_dom.data) then true
  else if FREE_EMAILS.contains em_dom then false
  else if TRUSTED_PLATFORMS.contains src_dom then true
  else false

/-! ## Result rows and the flattener -/

/-- One contact record as built by `run_job` (`row["contacts"]` entries). -/
structure Contact where
  source_url : String
  emails : List String
  raw_emails : List String
  socials : List String
  verified : Bool
deriving DecidableEq, Repr

/-- One PlaylistResult as built by `run_job` (`row`). -/
structure Row where
  genre : String
  playlist_name : String
  playlist_url : String
  followers : Int
  owner_name : String
  owner_id : String
  owner_url : String
  contacts : List Contact
deriving DecidableEq, Repr

/-- One flat export row as built by `flatten_rows`. -/
structure FlatRow where
  genre : String
  playlist_name : String
  playlist_url : String
  followers : Int
  owner_name : String
  owner_url : String
  owner_id : String
  contact_source : String
  contact_emails : String
  contact_socials : String
  contact_verified : Bool
deriving DecidableEq, Repr

/-- Python `"; ".join(l)`. -/
def joinSC : List String → String
  | [] => ""
  | [x] => x
  | x :: y :: t => x ++ "; " ++ joinSC (y :: t)

/-- `flatten_rows` of `app.py`: iterate over the results, appending one row
with empty contact fields when a result has no contacts, else one row per
contact. -/
def flatten_rows (results : List Row) : List FlatRow :=
  results.foldl
    (fun rows base =>
      if base.contacts.isEmpty then
        rows ++
          [{ genre := base.genre, playlist_name := base.playlist_name,
             playlist_url := base.playlist_url, followers := base.followers,
             owner_name := base.owner_name, owner_url := base.owner_url,
             owner_id := base.owner_id, contact_source := "",
             contact_emails := "", contact_socials := "",
             contact_verified := false }]
      else
        rows ++
          base.contacts.map (fun c =>
            { genre := base.genre, playlist_name := base.playlist_name,
              playlist_url := base.playlist_url, followers := base.followers,
              owner_name := base.owner_name, owner_url := base.owner_url,
              owner_id := base.owner_id, contact_source := c.source_url,
              contact_emails := joinSC c.emails,
              contact_socials := joinSC c.socials,
              contact_verified := c.verified }))
    []

/-! ## The Spotify token cache -/

/-- The process-wide TOK_CACHE: a token string and an absolute expiry.  Time
is modelled in integer seconds; the code compares and adds real timestamps,
and every property at stake is order-theoretic. -/
structure TokCache where
  access_token : String
  exp : Int
deriving DecidableEq, Repr

/-- A decoded token-endpoint response: the `access_token` field with default
`""` and the `expires_in` field with default 3600, both as the code reads
them. -/
structure TokenResp where
  access_token : String
  expires_in : Int
deriving DecidableEq, Repr

/-- Environment of `get_spotify_token`: the configured client credentials and
the outcome of the credentials-grant exchange (`none` models the HTTP request
or JSON decode raising). -/
structure SpotifyEnv where
  client_id : String
  client_secret : String
  exchange : Option TokenResp

/-- `get_spotify_token` of `app.py` with the cache and clock passed
explicitly: return the cached token if it is nonempty and expires more than
30 seconds from now; raise (model: `Except.error`) if credentials are missing
or the exchange fails; else store the fresh token with expiry `now +
expires_in` and return it. -/
def get_spotify_token (env : SpotifyEnv) (cache : TokCache) (now : Int) :
    Except String (String × TokCache) :=
  if cache.access_token ≠ "" && decide (cache.exp > now + 30) then
    .ok (cache.access_token, cache)
  else if env.client_id = "" || env.client_secret = "" then
    .error "Spotify credentials missing"
  else
    match env.exchange with
    | none => .error "token exchange failed"
    | some data =>
      .ok (data.access_token,
           { access_token := data.access_token, exp := now + data.expires_in })

/-! ## The job engine -/

/-- Job status values. -/
inductive Status
  | queued
  | running
  | done
  | cancelled
  | error
deriving DecidableEq, Repr

/-- A status is terminal iff it is done, cancelled or error. -/
def Status.isTerminal : Status → Bool
  | .done => true
  | .cancelled => true
  | .error => true
  | _ => false

/-- The places where `run_job` reads the shared cancellation flag: top of the
genre, page, item and per-item web-search loops, plus the final reads that
choose the terminal status and the closing log line. -/
inductive Site
  | genre
  | page
  | item
  | websearch
  | finalRead
deriving DecidableEq, Repr

/-- A JSON scalar as the code meets it in `detail["followers"]["total"]`:
absent/None, an integer, or a string (which `int()` may fail to parse). -/
inductive PyVal
  | vnone
  | vint (n : Int)
  | vstr (s : String)
deriving DecidableEq, Repr

/-- Python truthiness of a `PyVal`. -/
def pyTruthy : PyVal → Bool
  | .vnone => false
  | .vint n => n ≠ 0
  | .vstr s => s ≠ ""

/-- Python `v or 0`. -/
def orZero (v : PyVal) : PyVal := if pyTruthy v then v else .vint 0

/-- Python `int(v)`: identity on ints, string parse on strings (`none` models
the `ValueError`/`TypeError` raise). -/
def pyInt : PyVal → Option Int
  | .vnone => none
  | .vint n => some n
  | .vstr s => pyIntOfStr s

/-- One entry of a search page's `items` array: either not a dict (skipped by
the `isinstance` guard) or a dict whose `id` lookup gives `none` or a
string. -/
inductive SItem
  | notDict
  | dict (id : Option String)
deriving DecidableEq, Repr

/-- Outcome of one `search_playlists` call as `run_job` consumes it: `fail`
models the call raising; `ok items` is the item list after the code's
`(((data.get("playlists") or {}).get("items")) or [])` navigation. -/
inductive SearchOut
  | fail
  | ok (items : List SItem)

/-- A playlist detail response, with exactly the fields `run_job` reads; a
missing subobject is represented by empty-string/`vnone` fields, matching the
code's `or {}` / `.get(..., "")` defaults. -/
structure Det where
  followersTotal : PyVal
  name : String
  description : String
  ownerId : String
  ownerDisplayName : String
  ownerUrl : String
  plUrl : String
deriving DecidableEq, Repr

/-- Oracle for everything outside the worker: the token acquisition outcome,
both catalog calls, the web search (already folded to its returned link list;
the code returns `[]` on any failure), the contact-page fetch (`none` models
the fetch raising), and the shared cancellation flag as a function of the
logical read clock. -/
structure Env where
  tokenOk : Bool
  search : String → Nat → SearchOut
  detail : String → Option Det
  ddg : String → List String
  fetchPage : String → Option String
  cancel : Nat → Bool

/-- Submission parameters of a job. -/
structure Params where
  genres : List String
  min_followers : Int

/-- Events of the worker trace.  `setStatus`, `setProgress`, `setTotal`,
`setLast`, `setResults` and `logEv` record mutations of the shared job
record; `obs` records a read of the cancellation flag (site, clock stamp,
value read); `append` records an append to the worker-local result list,
stamped with the current clock. -/
inductive Ev
  | setStatus (st : Status)
  | setProgress
  | setTotal
  | setLast
  | logEv
  | setResults (rs : List Row)
  | obs (site : Site) (t : Nat) (v : Bool)
  | append (t : Nat)
deriving DecidableEq, Repr

/-- Worker state: the logical read clock, the `seen_playlists` set, the
worker-local `results` list, the playlist id of each appended row (ghost data
recording which playlist each `results` entry came from, in step), and the
event trace. -/
structure JState where
  clock : Nat
  seen : List String
  rowIds : List String
  results : List Row
  trace : List Ev
deriving DecidableEq, Repr

/-- Read the cancellation flag: returns the value at the current clock,
advances the clock and records the observation. -/
def readCancel (env : Env) (site : Site) (s : JState) : Bool × JState :=
  (env.cancel s.clock,
   { s with clock := s.clock + 1,
            trace := s.trace ++ [.obs site s.clock (env.cancel s.clock)] })

/-- The `owner_name = owner.get("display_name") or owner_id or ""` chain. -/
def ownerNameOf (det : Det) : String :=
  if det.ownerDisplayName ≠ "" then det.ownerDisplayName
  else if det.ownerId ≠ "" then det.ownerId
  else ""

/-- The seven domain substrings used to filter description URLs into the
`socials` field of the description contact. -/
def SOCIAL_DOMS : List String :=
  ["instagram.com", "facebook.com", "x.com", "twitter.com", "soundcloud.com",
   "bandcamp.com", "youtube.com"]

/-- The contact extracted from the catalog description, if any: present iff
some email or URL was found; emails are filtered through `verify_email`
against the catalog page. -/
def descContacts (desc owner_name : String) : List Contact :=
  let desc_emails := (extract_from_spotify_description desc).1
  let desc_urls := (extract_from_spotify_description desc).2
  if !desc_emails.isEmpty || !desc_urls.isEmpty then
    let verified :=
      desc_emails.filter
        (fun e => verify_email e "https://open.spotify.com" owner_name)
    [{ source_url := "spotify:description", emails := verified,
       raw_emails := desc_emails,
       socials := desc_urls.filter
         (fun u => SOCIAL_DOMS.any (fun dom => pyInStr dom u)),
       verified := !verified.isEmpty }]
  else []

/-- Process one discovered link: fetch the page (a raise skips the link),
extract and verify contacts, and keep a record iff a verified email or a
social link was found. -/
def linkContact (env : Env) (owner_name link : String) : Option Contact :=
  match env.fetchPage link with
  | none => none
  | some html =>
    let emails := (extract_contacts_from_html html).1
    let socials := (extract_contacts_from_html html).2
    let verified := emails.filter (fun e => verify_email e link owner_name)
    if !verified.isEmpty || !socials.isEmpty then
      some { source_url := link, emails := verified, raw_emails := emails,
             socials := socials, verified := !verified.isEmpty }
    else none

/-- The per-item web-search loop over the (at most two) contact queries: the
cancellation flag is read at the top of each iteration and a `true` breaks
the loop; each iteration searches the web and processes every returned
link. -/
def runRqs (env : Env) (owner_name : String) :
    List String → JState → List Contact → List Contact × JState
  | [], s, acc => (acc, s)
  | rq :: rest, s, acc =>
    let r := readCancel env .websearch s
    if r.1 then (acc, r.2)
    else
      runRqs env owner_name rest r.2
        (acc ++ (env.ddg rq).filterMap (linkContact env owner_name))

/-- Process one search item, lines 270 to 327 of `app.py`: skip non-dicts,
falsy ids and already-seen ids; mark the id seen; fetch the detail (a raise
skips the item); coerce the follower count with `int(... or 0)` (a raise
escapes the worker: `Except.error`); drop items under the follower threshold;
build the row, attach the description contact and the web-search contacts;
append the row and update the last-item snapshot. -/
def procItem (env : Env) (q : String) (mf : Int) (it : SItem) (s : JState) :
    Except JState JState :=
  match it with
  | .notDict => .ok s
  | .dict oid =>
    match oid with
    | none => .ok s
    | some plid =>
      if plid = "" then .ok s
      else if plid ∈ s.seen then .ok s
      else
        let s1 := { s with seen := plid :: s.seen }
        match env.detail plid with
        | none => .ok s1
        | some det =>
          match pyInt (orZero det.followersTotal) with
          | none => .error s1
          | some followers =>
            if followers < mf then .ok s1
            else
              let owner_name := ownerNameOf det
              let baseContacts := descContacts det.description owner_name
              let rqs :=
                [owner_name ++ " contact OR kontakt OR impressum email submit music",
                 det.name ++ " contact OR kontakt OR submit music email"].take 2
              let out := runRqs env owner_name rqs s1 []
              let s2 := out.2
              let row : Row :=
                { genre := pyReplace q " playlist" "",
                  playlist_name := det.name, playlist_url := det.plUrl,
                  followers := followers, owner_name := owner_name,
                  owner_id := det.ownerId, owner_url := det.ownerUrl,
                  contacts := baseContacts ++ out.1 }
              .ok { s2 with results := s2.results ++ [row],
                            rowIds := s2.rowIds ++ [plid],
                            trace := s2.trace ++ [.append s2.clock, .setLast] }

/-- The item loop: the cancellation flag is read at the top of each iteration
and a `true` breaks the loop; an exception escaping `procItem` escapes the
loop. -/
def loopItems (env : Env) (q : String) (mf : Int) :
    List SItem → JState → Except JState JState
  | [], s => .ok s
  | it :: rest, s =>
    let r := readCancel env .item s
    if r.1 then .ok r.2
    else
      match procItem env q mf it r.2 with
      | .error s1 => .error s1
      | .ok s1 => loopItems env q mf rest s1

/-- The page loop over page indices 0, 1, 2 (`for page in range(3)`): read the
cancellation flag at the top; a failing search logs and breaks; an empty item
list breaks; otherwise run the item loop and continue with the next page. -/
def loopPages (env : Env) (q : String) (mf : Int) :
    List Nat → JState → Except JState JState
  | [], s => .ok s
  | p :: ps, s =>
    let r := readCancel env .page s
    if r.1 then .ok r.2
    else
      match env.search q p with
      | .fail => .ok { r.2 with trace := r.2.trace ++ [.logEv] }
      | .ok items =>
        if items.isEmpty then .ok r.2
        else
          match loopItems env q mf items r.2 with
          | .error s1 => .error s1
          | .ok s1 => loopPages env q mf ps s1

/-- The genre loop: read the cancellation flag at the top; log the search;
run the page loop; increment the progress counter after each genre. -/
def loopGenres (env : Env) (mf : Int) :
    List String → JState → Except JState JState
  | [], s => .ok s
  | q :: qs, s =>
    let r := readCancel env .genre s
    if r.1 then .ok r.2
    else
      match loopPages env q mf [0, 1, 2]
          { r.2 with trace := r.2.trace ++ [.logEv] } with
      | .error s1 => .error s1
      | .ok s1 =>
        loopGenres env mf qs { s1 with trace := s1.trace ++ [.setProgress] }

/-- Worker state after the auth-error return path (lines 240 to 248 of
`app.py`): status running, progress reset, start log, then status error and
the error log; no catalog work was done. -/
def errJState : JState :=
  { clock := 0, seen := [], rowIds := [], results := [],
    trace := [.setStatus .running, .setProgress, .logEv, .setStatus .error,
              .logEv] }

/-- Worker state right before the genre loop (lines 240 to 255): status
running, progress reset, start log, total-step count set; empty local
results, empty seen-set. -/
def initJState : JState :=
  { clock := 0, seen := [], rowIds := [], results := [],
    trace := [.setStatus .running, .setProgress, .logEv, .setTotal] }

/-- The search phrases `f"{g} playlist"` built from the submitted genres. -/
def queriesOf (p : Params) : List String :=
  p.genres.map (fun g => g ++ " playlist")

/-- Lines 330 to 332 of `app.py`: publish the local results into the job
record, read the cancellation flag to choose between `cancelled` and `done`,
and log the closing line (which reads the flag once more). -/
def finalizeJob (env : Env) (s : JState) : JState :=
  let r1 := readCancel env .finalRead s
  let st : Status := if r1.1 then .cancelled else .done
  let r2 := readCancel env .finalRead
    { r1.2 with trace := r1.2.trace ++ [.setResults r1.2.results,
                                        .setStatus st] }
  { r2.2 with trace := r2.2.trace ++ [.logEv] }

/-- `run_job` of `app.py`: set status running, reset progress, log; acquire
the token (failure sets status error and returns: `errJState`); build the
queries, set the total-step count (`initJState`); run the genre loop (an
escaping exception aborts the whole worker: `Except.error`); then publish
and finish (`finalizeJob`). -/
def run_job (env : Env) (p : Params) : Except JState JState :=
  if !env.tokenOk then .ok errJState
  else
    match loopGenres env p.min_followers (queriesOf p) initJState with
    | .error s => .error s
    | .ok s => .ok (finalizeJob env s)

/-! ## Observers on worker runs -/

/-- The state carried by either branch of a worker outcome. -/
def outState : Except JState JState → JState
  | .ok s => s
  | .error s => s

/-- Did the worker return normally? -/
def isOkE : Except JState JState → Bool
  | .ok _ => true
  | .error _ => false

/-- The event trace of a run, whether or not an exception escaped. -/
def runTrace (env : Env) (p : Params) : List Ev :=
  (outState (run_job env p)).trace

/-- The sequence of values assigned to the job's status field, in order. -/
def statusWrites (t : List Ev) : List Status :=
  t.filterMap (fun e => match e with | .setStatus st => some st | _ => none)

/-- The last value assigned to the status field, if any. -/
def lastStatus (t : List Ev) : Option Status := (statusWrites t).getLast?

/-- Number of result-row appends stamped strictly after clock `t0`. -/
def appendsAfter (t0 : Nat) (t : List Ev) : Nat :=
  t.countP (fun e => match e with
    | .append u => decide (t0 < u)
    | _ => false)

/-- Total number of result-row appends in a trace. -/
def appendCount (t : List Ev) : Nat :=
  t.countP (fun e => match e with | .append _ => true | _ => false)

/-- Events that mutate the shared job record (everything except the ghost
`obs` and worker-local `append` events). -/
def isMutEv : Ev → Bool
  | .obs _ _ _ => false
  | .append _ => false
  | _ => true

/-- The job-record mutations of a trace, in order. -/
def mutTrace (t : List Ev) : List Ev := t.filter isMutEv

/-- Number of assignments to the job's results field. -/
def countSetResults (t : List Ev) : Nat :=
  t.countP (fun e => match e with | .setResults _ => true | _ => false)

/-- Is the event an assignment to the results field? -/
def isSetResultsEv : Ev → Bool
  | .setResults _ => true
  | _ => false

/-- Every assignment to the results field is immediately followed by a
terminal status assignment (checked over each adjacent pair; a trailing
results assignment fails). -/
def pubOk : List Ev → Bool
  | [] => true
  | [e] => !isSetResultsEv e
  | e :: e2 :: rest =>
    (if isSetResultsEv e then
       match e2 with
       | Ev.setStatus st => st.isTerminal
       | _ => false
     else true) && pubOk (e2 :: rest)

/-- Events a loop body may emit: anything except a status or results
assignment (those happen only at the top level of `run_job`). -/
def workerEv : Ev → Bool
  | .setStatus _ => false
  | .setResults _ => false
  | _ => true

/-- The cancellation flag is monotone: once set it stays set.  This is how
the shared flag behaves in the program: `/cancel` only ever writes `True`. -/
def CancelMono (c : Nat → Bool) : Prop :=
  ∀ t u : Nat, t ≤ u → c t = true → c u = true

/-! ## Invariants of worker states and steps -/

/-- Trace sanity relative to the clock: every recorded observation is stamped
before the current clock and records the true flag value at its stamp; every
recorded append is stamped no later than the current clock. -/
def WfT (env : Env) (s : JState) : Prop :=
  (∀ site t v, Ev.obs site t v ∈ s.trace → t < s.clock ∧ env.cancel t = v) ∧
  (∀ t, Ev.append t ∈ s.trace → t ≤ s.clock)

/-- A worker step that, entered with the cancellation flag already set,
returns normally and emits no further result-row appends.  This holds for
every loop (the first checkpoint breaks it) but not for `procItem` (the
in-flight item is still appended). -/
def Kills (env : Env) (s : JState) (r : Except JState JState) : Prop :=
  env.cancel s.clock = true →
    isOkE r = true ∧
    ∀ ext, (outState r).trace = s.trace ++ ext → ∀ t, Ev.append t ∉ ext

/-- What one worker step guarantees, relating the entry state `s` to the
outcome `r`: the clock is monotone, trace sanity is preserved, the
`seen_playlists` set only grows, and the trace/results/row-id lists are
extended by a suffix in which: only loop-body events occur (no status or
results assignment); every stamp is at least the entry clock; after any
observation of a set cancellation flag the step completed normally and at
most one append follows (none if the observation site is not the per-item
web-search loop); every new row passed the follower filter; the new row ids
are distinct, freshly seen, and in step with the new rows. -/
def StepCore (env : Env) (mf : Int) (s : JState)
    (r : Except JState JState) : Prop :=
  s.clock ≤ (outState r).clock ∧
  WfT env (outState r) ∧
  (∀ x, x ∈ s.seen → x ∈ (outState r).seen) ∧
  ∃ ext nrs nids,
    (outState r).trace = s.trace ++ ext ∧
    (outState r).results = s.results ++ nrs ∧
    (outState r).rowIds = s.rowIds ++ nids ∧
    (∀ e ∈ ext, workerEv e = true) ∧
    (∀ site t v, Ev.obs site t v ∈ ext → s.clock ≤ t) ∧
    (∀ t, Ev.append t ∈ ext → s.clock ≤ t) ∧
    (∀ site t, Ev.obs site t true ∈ ext →
      isOkE r = true ∧ appendsAfter t ext ≤ 1 ∧
      (site ≠ Site.websearch → appendsAfter t ext = 0)) ∧
    (∀ row ∈ nrs, mf ≤ row.followers) ∧
    nids.Nodup ∧
    (∀ id ∈ nids, id ∈ (outState r).seen ∧ id ∉ s.seen) ∧
    nrs.length = nids.length

/-! ## Spec-shaped flat rows (used to state the flattener claim) -/

/-- The flat row the spec prescribes for one contact of a result: playlist
fields copied, contact fields filled from the record. -/
def flatRowOf (base : Row) (c : Contact) : FlatRow :=
  { genre := base.genre, playlist_name := base.playlist_name,
    playlist_url := base.playlist_url, followers := base.followers,
    owner_name := base.owner_name, owner_url := base.owner_url,
    owner_id := base.owner_id, contact_source := c.source_url,
    contact_emails := joinSC c.emails, contact_socials := joinSC c.socials,
    contact_verified := c.verified }

/-- The flat row the spec prescribes for a result without contacts: playlist
fields copied, contact fields empty, verified false. -/
def emptyFlatRowOf (base : Row) : FlatRow :=
  { genre := base.genre, playlist_name := base.playlist_name,
    playlist_url := base.playlist_url, followers := base.followers,
    owner_name := base.owner_name, owner_url := base.owner_url,
    owner_id := base.owner_id, contact_source := "", contact_emails := "",
    contact_socials := "", contact_verified := false }

/-! ## Concrete environments for counterexamples and witnesses -/

/-- A well-formed playlist detail: 100 followers, plain owner. -/
def detOk : Det :=
  { followersTotal := .vint 100, name := "Peak List", description := "",
    ownerId := "own1", ownerDisplayName := "Owner One", ownerUrl := "",
    plUrl := "https://open.spotify.com/playlist/p1" }

/-- Benign environment: token available, one search result on page 0, clean
detail, empty web search, no cancellation. -/
def envBase : Env :=
  { tokenOk := true,
    search := fun _ p => if p = 0 then .ok [.dict (some "p1")] else .ok [],
    detail := fun _ => some detOk,
    ddg := fun _ => [],
    fetchPage := fun _ => none,
    cancel := fun _ => false }

/-- One genre, zero follower threshold. -/
def pBase : Params := { genres := ["Techno"], min_followers := 0 }

/-- One genre, follower threshold 5. -/
def pW : Params := { genres := ["Techno"], min_followers := 5 }

/-- Environment whose single playlist detail carries a malformed follower
count: `{"followers": {"total": "many"}}`, on which Python's
`int("many")` raises `ValueError`. -/
def envCrash : Env :=
  { envBase with
    detail := fun _ => some { detOk with followersTotal := .vstr "many" } }

/-- Environment with two playlists: the first is clean and produces a row,
the second carries the malformed follower count `"N/A"`. -/
def envCrash2 : Env :=
  { envBase with
    search := fun _ p =>
      if p = 0 then .ok [.dict (some "p1"), .dict (some "p2")] else .ok [],
    detail := fun id =>
      if id = "p1" then some detOk
      else some { detOk with followersTotal := .vstr "N/A" } }

/-- Environment in which the cancellation flag becomes set at clock 3 — that
is, right before the worker's fourth flag read, which is the checkpoint at
the top of the per-item web-search loop of the first qualifying item. -/
def envCancel3 : Env := { envBase with cancel := fun t => decide (3 ≤ t) }

/-- Spotify environment with configured credentials and a clean exchange. -/
def spotEnvOk : SpotifyEnv :=
  { client_id := "id", client_secret := "sec",
    exchange := some { access_token := "T", expires_in := 3600 } }

/-- Spotify environment with unconfigured credentials. -/
def spotEnvNoCred : SpotifyEnv :=
  { client_id := "", client_secret := "", exchange := none }

/-! ## Sorting lemmas -/

theorem insertSortedStr_perm (x : String) (l : List String) :
    List.Perm (insertSortedStr x l) (x :: l) := by
  induction l with
  | nil => exact List.Perm.refl _
  | cons y ys ih =>
    simp only [insertSortedStr]
    split
    · exact List.Perm.refl _
    · exact (List.Perm.cons y ih).trans (List.Perm.swap x y ys)

theorem sortStrings_perm (l : List String) : List.Perm (sortStrings l) l := by
  induction l with
  | nil => exact List.Perm.refl _
  | cons x xs ih =>
    exact (insertSortedStr_perm x (sortStrings xs)).trans (List.Perm.cons x ih)

theorem strLeL_total (a : List Char) :
    ∀ b, strLeL a b = true ∨ strLeL b a = true := by
  induction a with
  | nil => intro b; left; rfl
  | cons x xs ih =>
    intro b
    cases b with
    | nil => right; rfl
    | cons y ys =>
      simp only [strLeL]
      rcases Nat.lt_trichotomy x.toNat y.toNat with h | h | h
      · left
        simp [h]
      · have h1 : ¬ x.toNat < y.toNat := by omega
        have h2 : ¬ y.toNat < x.toNat := by omega
        simpa [h1, h2] using ih ys
      · right
        simp [h]

theorem strLe_total (a b : String) : strLe a b = true ∨ strLe b a = true :=
  strLeL_total a.data b.data

theorem isSortedStr_insert (x : String) (l : List String)
    (h : isSortedStr l = true) : isSortedStr (insertSortedStr x l) = true := by
  induction l with
  | nil => rfl
  | cons y ys ih =>
    simp only [insertSortedStr]
    by_cases hxy : strLe x y = true
    · simpa [isSortedStr, hxy] using h
    · have hyx : strLe y x = true := (strLe_total x y).resolve_left hxy
      simp only [if_neg hxy]
      cases ys with
      | nil => simp [insertSortedStr, isSortedStr, hyx]
      | cons z zs =>
        have hyz : strLe y z = true := by
          simp [isSortedStr] at h
          exact h.1
        have hzs : isSortedStr (z :: zs) = true := by
          simp [isSortedStr] at h
          exact h.2
        have htail := ih hzs
        simp only [insertSortedStr] at htail ⊢
        by_cases hxz : strLe x z = true
        · simp only [if_pos hxz] at htail ⊢
          simp [isSortedStr, hyx, hxz, hzs]
        · simp only [if_neg hxz] at htail ⊢
          simp [isSortedStr, hyz] at htail ⊢
          exact htail

theorem isSortedStr_sortStrings (l : List String) :
    isSortedStr (sortStrings l) = true := by
  induction l with
  | nil => rfl
  | cons x xs ih => exact isSortedStr_insert x (sortStrings xs) ih

theorem pySortedSet_nodup (l : List String) : (pySortedSet l).Nodup :=
  ((sortStrings_perm l.dedup).nodup_iff).mpr (List.nodup_dedup l)

theorem pySortedSet_sorted (l : List String) :
    isSortedStr (pySortedSet l) = true :=
  isSortedStr_sortStrings l.dedup

/-! ## C8: the contact extractors -/

/-- C8: both contact-extraction entry points are pure functions of their text
argument returning deduplicated, sorted lists: `extract_contacts_from_html`
for emails and socials, `extract_from_spotify_description` for emails and the
union of bare URLs with social matches; and on the text
`"contact me at foo@bar.com or foo@bar.com"` the email list is exactly
`["foo@bar.com"]`. -/
theorem c8_extractors_dedup_sorted :
    (∀ s : String,
      (extract_contacts_from_html s).1.Nodup ∧
      isSortedStr (extract_contacts_from_html s).1 = true ∧
      (extract_contacts_from_html s).2.Nodup ∧
      isSortedStr (extract_contacts_from_html s).2 = true ∧
      (extract_from_spotify_description s).1.Nodup ∧
      isSortedStr (extract_from_spotify_description s).1 = true ∧
      (extract_from_spotify_description s).2.Nodup ∧
      isSortedStr (extract_from_spotify_description s).2 = true) ∧
    (extract_contacts_from_html "contact me at foo@bar.com or foo@bar.com").1 =
      ["foo@bar.com"] := by
  constructor
  · intro s
    exact ⟨pySortedSet_nodup _, pySortedSet_sorted _, pySortedSet_nodup _,
           pySortedSet_sorted _, pySortedSet_nodup _, pySortedSet_sorted _,
           pySortedSet_nodup _, pySortedSet_sorted _⟩
  · decide

/-! ## C2: the contact verifier -/

theorem pySplitWsAux_ne_nil :
    ∀ (cs cur : List Char) t, t ∈ pySplitWsAux cs cur → t ≠ [] := by
  intro cs
  induction cs with
  | nil =>
    intro cur t ht
    simp only [pySplitWsAux] at ht
    split at ht
    · simp at ht
    · rename_i hcur
      simp at ht
      subst ht
      simpa [List.isEmpty_iff] using hcur
  | cons c rest ih =>
    intro cur t ht
    simp only [pySplitWsAux] at ht
    split at ht
    · split at ht
      · exact ih [] t ht
      · rename_i hcur
        rcases List.mem_cons.mp ht with h | h
        · subst h
          simpa [List.isEmpty_iff] using hcur
        · exact ih [] t h
    · exact ih (c :: cur) t ht

theorem pySplitWs_ne_empty (s : String) : ∀ tok ∈ pySplitWs s, tok ≠ "" := by
  intro tok htok
  simp only [pySplitWs, List.mem_map] at htok
  obtain ⟨t, ht, rfl⟩ := htok
  have hne : t ≠ [] := pySplitWsAux_ne_nil s.data [] t ht
  intro hcon
  exact hne (congrArg String.data hcon)

theorem any_and_ne (l : List String) (p : String → Bool)
    (h : ∀ x ∈ l, x ≠ "") :
    (l.any fun tok => decide (tok ≠ "") && p tok) = l.any p := by
  induction l with
  | nil => rfl
  | cons a t ih =>
    simp only [List.any_cons]
    rw [ih (fun x hx => h x (List.mem_cons_of_mem a hx))]
    have ha : a ≠ "" := h a (List.mem_cons_self a t)
    simp [ha]

theorem ite_or_split (x y : Bool) (Z : Bool) :
    (if (x || y) = true then true else Z) =
      if x = true then true else if y = true then true else Z := by
  cases x <;> cases y <;> simp

theorem verify_email_eq_spec (e u o : String) :
    verify_email e u o = verifySpecSix e u o := by
  unfold verify_email verifySpecSix
  set em := pyLower ((pySplitChar '@' e).getLastD "") with hemdef
  set sd := domain_from_url u with hsddef
  set tks := pySplitWs (pyLower o) with htksdef
  rw [ite_or_split]
  congr 2
  by_cases ho : o = ""
  · have htks : tks = [] := by
      rw [htksdef, ho]
      rfl
    rw [htks]
    simp
  · have hdec : decide (o ≠ "") = true := by simp [ho]
    rw [hdec, Bool.true_and,
        any_and_ne tks _ (htksdef ▸ pySplitWs_ne_empty (pyLower o))]

/-- C2: `verify_email` implements exactly the spec's six-rule first-match
decision order (formalised by `verifySpecSix`), and the three concrete
instances of the spec's test list hold: a same-domain email is trusted for
any owner name, a gmail address found on an unrelated page is untrusted, and
an owner-name token match is trusted. -/
theorem c2_verify_email_six_rules :
    (∀ e u o, verify_email e u o = verifySpecSix e u o) ∧
    (∀ name, verify_email "email@samedomain.tld" "https://samedomain.tld/x"
        name = true) ∧
    verify_email "e@gmail.com" "https://unrelated.tld" "" = false ∧
    verify_email "booking@artistname.com" "https://other.tld" "Artist Name" =
      true := by
  refine ⟨verify_email_eq_spec, fun name => rfl, by decide, by decide⟩

/-! ## C7: the result flattener -/

theorem foldl_step_append {α β : Type} (g : α → List β)
    (f : List β → α → List β) (hf : ∀ acc b, f acc b = acc ++ g b) :
    ∀ (l : List α) (acc : List β),
      l.foldl f acc = acc ++ (l.map g).flatten := by
  intro l
  induction l with
  | nil => intro acc; simp
  | cons b t ih =>
    intro acc
    rw [List.foldl_cons, hf, ih, List.map_cons, List.flatten_cons,
        List.append_assoc]

theorem flatten_rows_eq (results : List Row) :
    flatten_rows results =
      (results.map (fun base =>
        if base.contacts.isEmpty then [emptyFlatRowOf base]
        else base.contacts.map (flatRowOf base))).flatten := by
  unfold flatten_rows
  rw [foldl_step_append
    (fun base =>
      if base.contacts.isEmpty then [emptyFlatRowOf base]
      else base.contacts.map (flatRowOf base))]
  · rfl
  · intro acc b
    by_cases h : b.contacts.isEmpty
    · simp [h, emptyFlatRowOf]
    · simp [h, flatRowOf]

/-- C7: `flatten_rows` emits, for a result with no contacts, exactly one row
with empty contact fields and verified false, and for a result with contacts
one row per contact repeating the playlist-level fields (the per-row content
is `emptyFlatRowOf` resp. `flatRowOf`); the output is the in-order
concatenation of the per-result blocks, so result order and contact order
are preserved, and the row counts are exactly 1 resp. N. -/
theorem c7_flatten_rows :
    (∀ results : List Row,
      flatten_rows results =
        (results.map (fun base =>
          if base.contacts.isEmpty then [emptyFlatRowOf base]
          else base.contacts.map (flatRowOf base))).flatten) ∧
    (∀ r1 r2 : List Row,
      flatten_rows (r1 ++ r2) = flatten_rows r1 ++ flatten_rows r2) ∧
    (∀ base : Row,
      (flatten_rows [base]).length =
        if base.contacts.isEmpty then 1 else base.contacts.length) := by
  refine ⟨flatten_rows_eq, ?_, ?_⟩
  · intro r1 r2
    rw [flatten_rows_eq, flatten_rows_eq, flatten_rows_eq, List.map_append,
        List.flatten_append]
  · intro base
    rw [flatten_rows_eq]
    by_cases h : base.contacts.isEmpty
    · rw [List.isEmpty_iff] at h
      simp [h]
    · rw [List.isEmpty_iff] at h
      simp [h]

/-! ## C9: the token cache -/

/-- C9 counterexample: with a far-future expiry but an empty cached token
(the state left by an exchange response missing `access_token`), the code
does not return the cached credential — it performs a fresh exchange.  The
claim "returns the cached credential whenever the cached expiry lies more
than 30 seconds in the future" is therefore false as stated. -/
theorem c9_counterexample :
    get_spotify_token spotEnvOk { access_token := "", exp := 1000 } 0 ≠
      Except.ok ((({ access_token := "", exp := 1000 } : TokCache)).access_token,
        ({ access_token := "", exp := 1000 } : TokCache)) ∧
    get_spotify_token spotEnvOk { access_token := "", exp := 1000 } 0 =
      Except.ok ("T", { access_token := "T", exp := 3600 }) := by
  constructor
  · intro h
    have h2 : get_spotify_token spotEnvOk { access_token := "", exp := 1000 } 0 =
        Except.ok ("T", { access_token := "T", exp := 3600 }) := rfl
    rw [h2] at h
    simp at h
  · rfl

/-- Helper for C9: the stale-cache branches of `get_spotify_token`. -/
theorem c9_get_token_stale (env : SpotifyEnv) (cache : TokCache) (now : Int)
    (hstale : ¬ (cache.access_token ≠ "" ∧ cache.exp > now + 30)) :
    (env.client_id = "" ∨ env.client_secret = "" →
      get_spotify_token env cache now = .error "Spotify credentials missing") ∧
    (env.client_id ≠ "" → env.client_secret ≠ "" →
      (env.exchange = none →
        get_spotify_token env cache now = .error "token exchange failed") ∧
      (∀ data, env.exchange = some data →
        get_spotify_token env cache now =
          .ok (data.access_token,
            { access_token := data.access_token,
              exp := now + data.expires_in }))) := by
  have hcond : (cache.access_token ≠ "" && decide (cache.exp > now + 30)) = false := by
    rcases Decidable.em (cache.access_token = "") with h | h
    · simp [h]
    · rcases Decidable.em (cache.exp > now + 30) with h2 | h2
      · exact absurd ⟨h, h2⟩ hstale
      · simp [h2]
  constructor
  · intro hcred
    unfold get_spotify_token
    rw [hcond, if_neg (by decide), if_pos (by rcases hcred with h | h <;> simp [h])]
  · intro hid hsec
    constructor
    · intro hex
      unfold get_spotify_token
      rw [hcond, if_neg (by decide), if_neg (by simp [hid, hsec]), hex]
    · intro data hex
      unfold get_spotify_token
      rw [hcond, if_neg (by decide), if_neg (by simp [hid, hsec]), hex]

/-- Helper for C9: the fresh-cache branch of `get_spotify_token`. -/
theorem c9_get_token_cached (env : SpotifyEnv) (cache : TokCache) (now : Int)
    (hne : cache.access_token ≠ "") (hfresh : cache.exp > now + 30) :
    get_spotify_token env cache now = .ok (cache.access_token, cache) := by
  unfold get_spotify_token
  rw [if_pos (by simp [hne, hfresh])]

/-- C9 (amended): `get_spotify_token` returns the cached credential whenever
the cached token is nonempty and its expiry lies more than 30 seconds in the
future; otherwise it fails with the auth error when client credentials are
not configured, fails when the exchange fails, and on a successful exchange
stores and returns the fresh token with absolute expiry `now +
expires_in`. -/
theorem c9_token_claim (env : SpotifyEnv) (cache : TokCache) (now : Int) :
    (cache.access_token ≠ "" → cache.exp > now + 30 →
      get_spotify_token env cache now = .ok (cache.access_token, cache)) ∧
    (¬ (cache.access_token ≠ "" ∧ cache.exp > now + 30) →
      (env.client_id = "" ∨ env.client_secret = "" →
        get_spotify_token env cache now =
          .error "Spotify credentials missing") ∧
      (env.client_id ≠ "" → env.client_secret ≠ "" →
        (env.exchange = none →
          get_spotify_token env cache now = .error "token exchange failed") ∧
        (∀ data, env.exchange = some data →
          get_spotify_token env cache now =
            .ok (data.access_token,
              { access_token := data.access_token,
                exp := now + data.expires_in })))) :=
  ⟨fun h1 h2 => c9_get_token_cached env cache now h1 h2,
   fun hs => c9_get_token_stale env cache now hs⟩

/-- Witness for the C9 theorem at concrete inputs: a nonempty fresh cache is
returned as-is; with a stale cache, missing credentials give the auth error
and configured credentials give the fresh token with expiry
`now + expires_in`. -/
theorem c9_token_claim_witness :
    get_spotify_token spotEnvOk { access_token := "tok", exp := 100 } 7 =
      .ok ("tok", { access_token := "tok", exp := 100 }) ∧
    get_spotify_token spotEnvNoCred { access_token := "", exp := 0 } 7 =
      .error "Spotify credentials missing" ∧
    get_spotify_token spotEnvOk { access_token := "", exp := 0 } 7 =
      .ok ("T", { access_token := "T", exp := 7 + 3600 }) := by
  refine ⟨?_, ?_, ?_⟩
  · exact (c9_token_claim spotEnvOk { access_token := "tok", exp := 100 } 7).1
      (by decide) (by decide)
  · exact ((c9_token_claim spotEnvNoCred { access_token := "", exp := 0 } 7).2
      (by intro h; exact h.1 rfl)).1 (Or.inl rfl)
  · exact (((c9_token_claim spotEnvOk { access_token := "", exp := 0 } 7).2
      (by intro h; exact h.1 rfl)).2 (by decide) (by decide)).2
      { access_token := "T", expires_in := 3600 } rfl

/-! ## C1 and C4: the uncaught `int()` exception -/

/-- C1 (code bug): with a catalog detail response whose follower count is
the non-numeric string `"many"`, the `int(((det.get("followers") or
{}).get("total")) or 0)` coercion raises a `ValueError` that no handler in
`run_job` catches — the run aborts (`Except.error`) and at that point the
only status ever written is `running`, never a terminal value.  A caller
polling the job would wait forever, contradicting the spec's "no exception
crosses the worker boundary uncaught". -/
theorem c1_uncaught_exception_bug :
    isOkE (run_job envCrash pBase) = false ∧
    statusWrites (runTrace envCrash pBase) = [Status.running] ∧
    ∀ st ∈ statusWrites (runTrace envCrash pBase), st.isTerminal = false := by
  refine ⟨by decide, by decide, by decide⟩

/-- C4 (code bug): in the run on `envCrash2` — one clean playlist followed by
one whose follower count is the string `"N/A"` — the worker dies after
appending the first row and before any terminal status assignment: the
status field is assigned a terminal value zero times, not exactly once, and
the job record remains `running` forever. -/
theorem c4_terminal_status_bug :
    isOkE (run_job envCrash2 pBase) = false ∧
    (statusWrites (runTrace envCrash2 pBase)).countP
      (fun st => st.isTerminal) = 0 ∧
    statusWrites (runTrace envCrash2 pBase) = [Status.running] ∧
    (outState (run_job envCrash2 pBase)).results.length = 1 := by
  refine ⟨by decide, by decide, by decide, by decide⟩

/-! ## C3 counterexample -/

/-- C3 counterexample: in the run on `envCancel3` the cancellation flag is
observed set at the top of the per-item web-search loop (clock stamp 3), and
one result row is still appended after that observation point (the in-flight
item's row, `results.append(row)` sits after the web-search loop), refuting
"appends no further result rows after the observation point" for the
web-search checkpoint; the terminal status is nonetheless `cancelled`. -/
theorem c3_append_after_observation_counterexample :
    Ev.obs Site.websearch 3 true ∈ runTrace envCancel3 pBase ∧
    appendsAfter 3 (runTrace envCancel3 pBase) = 1 ∧
    lastStatus (runTrace envCancel3 pBase) = some Status.cancelled := by
  refine ⟨by decide, by decide, by decide⟩

/-! ## Trace bookkeeping lemmas -/

theorem appendsAfter_append (t0 : Nat) (a b : List Ev) :
    appendsAfter t0 (a ++ b) = appendsAfter t0 a + appendsAfter t0 b := by
  unfold appendsAfter
  exact List.countP_append _ _ _

theorem appendsAfter_of_no_append (t0 : Nat) (l : List Ev)
    (h : ∀ u, Ev.append u ∉ l) : appendsAfter t0 l = 0 := by
  unfold appendsAfter
  rw [List.countP_eq_zero]
  intro e he
  cases e with
  | append u => exact absurd he (h u)
  | setStatus st => simp
  | setProgress => simp
  | setTotal => simp
  | setLast => simp
  | logEv => simp
  | setResults rs => simp
  | obs site t v => simp

theorem appendsAfter_of_le (t0 : Nat) (l : List Ev)
    (h : ∀ u, Ev.append u ∈ l → u ≤ t0) : appendsAfter t0 l = 0 := by
  unfold appendsAfter
  rw [List.countP_eq_zero]
  intro e he
  cases e with
  | append u =>
    have := h u he
    simp
    omega
  | setStatus st => simp
  | setProgress => simp
  | setTotal => simp
  | setLast => simp
  | logEv => simp
  | setResults rs => simp
  | obs site t v => simp

theorem appendsAfter_le_appendCount (t0 : Nat) (l : List Ev) :
    appendsAfter t0 l ≤ appendCount l := by
  unfold appendsAfter appendCount
  apply List.countP_mono_left
  intro e he
  cases e <;> simp

theorem appendCount_append (a b : List Ev) :
    appendCount (a ++ b) = appendCount a + appendCount b := by
  unfold appendCount
  exact List.countP_append _ _ _

theorem appendCount_of_no_append (l : List Ev)
    (h : ∀ u, Ev.append u ∉ l) : appendCount l = 0 := by
  unfold appendCount
  rw [List.countP_eq_zero]
  intro e he
  cases e with
  | append u => exact absurd he (h u)
  | setStatus st => simp
  | setProgress => simp
  | setTotal => simp
  | setLast => simp
  | logEv => simp
  | setResults rs => simp
  | obs site t v => simp

theorem statusWrites_append (a b : List Ev) :
    statusWrites (a ++ b) = statusWrites a ++ statusWrites b := by
  unfold statusWrites
  exact List.filterMap_append _ _ _

theorem statusWrites_of_workerEv (l : List Ev)
    (h : ∀ e ∈ l, workerEv e = true) : statusWrites l = [] := by
  unfold statusWrites
  rw [List.filterMap_eq_nil_iff]
  intro e he
  cases e with
  | setStatus st =>
    have := h _ he
    simp [workerEv] at this
  | setProgress => rfl
  | setTotal => rfl
  | setLast => rfl
  | logEv => rfl
  | setResults rs => rfl
  | obs site t v => rfl
  | append u => rfl

theorem no_setResults_of_workerEv (l : List Ev)
    (h : ∀ e ∈ l, workerEv e = true) : ∀ rs, Ev.setResults rs ∉ l := by
  intro rs hmem
  have := h _ hmem
  simp [workerEv] at this

theorem mutTrace_append (a b : List Ev) :
    mutTrace (a ++ b) = mutTrace a ++ mutTrace b := by
  unfold mutTrace
  exact List.filter_append _ _

theorem countSetResults_append (a b : List Ev) :
    countSetResults (a ++ b) = countSetResults a + countSetResults b := by
  unfold countSetResults
  exact List.countP_append _ _ _

theorem countSetResults_of_workerEv (l : List Ev)
    (h : ∀ e ∈ l, workerEv e = true) : countSetResults l = 0 := by
  unfold countSetResults
  rw [List.countP_eq_zero]
  intro e he
  cases e with
  | setResults rs =>
    have := h _ he
    simp [workerEv] at this
  | setStatus st => simp
  | setProgress => simp
  | setTotal => simp
  | setLast => simp
  | logEv => simp
  | obs site t v => simp
  | append u => simp

theorem mutTrace_no_setResults (l : List Ev)
    (h : ∀ rs, Ev.setResults rs ∉ l) : ∀ rs, Ev.setResults rs ∉ mutTrace l := by
  intro rs hmem
  exact h rs (List.mem_of_mem_filter hmem)

theorem not_isSetResultsEv_of_mem_free (l : List Ev) (e : Ev)
    (h : ∀ rs, Ev.setResults rs ∉ l) (he : e ∈ l) :
    isSetResultsEv e = false := by
  cases e with
  | setResults rs => exact absurd he (h rs)
  | setStatus st => rfl
  | setProgress => rfl
  | setTotal => rfl
  | setLast => rfl
  | logEv => rfl
  | obs site u v => rfl
  | append u => rfl

theorem pubOk_cons_free (e : Ev) (l : List Ev)
    (he : isSetResultsEv e = false) : pubOk (e :: l) = pubOk l := by
  cases l with
  | nil => simp [pubOk, he]
  | cons e2 rest => simp [pubOk, he]

theorem pubOk_append_of_no_setResults :
    ∀ (pre rest : List Ev), (∀ rs, Ev.setResults rs ∉ pre) →
      pubOk (pre ++ rest) = pubOk rest := by
  intro pre
  induction pre with
  | nil => intro rest _; rfl
  | cons e t ih =>
    intro rest h
    have he : isSetResultsEv e = false :=
      not_isSetResultsEv_of_mem_free _ e h (List.mem_cons_self _ _)
    rw [List.cons_append, pubOk_cons_free e _ he]
    exact ih rest (fun rs hrs => h rs (List.mem_cons_of_mem _ hrs))

theorem pubOk_of_no_setResults (l : List Ev)
    (h : ∀ rs, Ev.setResults rs ∉ l) : pubOk l = true := by
  have := pubOk_append_of_no_setResults l [] h
  simpa using this

/-! ## Worker-step lemmas -/

theorem WfT_readCancel (env : Env) (site : Site) (s : JState)
    (h : WfT env s) : WfT env (readCancel env site s).2 := by
  obtain ⟨hobs, happ⟩ := h
  constructor
  · intro site2 t v hmem
    rcases List.mem_append.mp hmem with hm | hm
    · have h2 := hobs site2 t v hm
      exact ⟨Nat.lt_succ_of_lt h2.1, h2.2⟩
    · rw [List.mem_singleton] at hm
      rw [Ev.obs.injEq] at hm
      obtain ⟨h1, h2, h3⟩ := hm
      subst h2
      subst h3
      exact ⟨Nat.lt_succ_self _, rfl⟩
  · intro t hmem
    rcases List.mem_append.mp hmem with hm | hm
    · exact Nat.le_succ_of_le (happ t hm)
    · rw [List.mem_singleton] at hm
      cases hm

theorem StepCore_refl (env : Env) (mf : Int) (s : JState) (h : WfT env s) :
    StepCore env mf s (.ok s) := by
  refine ⟨Nat.le_refl _, h, fun x hx => hx, [], [], [],
    (List.append_nil _).symm, (List.append_nil _).symm,
    (List.append_nil _).symm, ?_, ?_, ?_, ?_, ?_, ?_, ?_, rfl⟩
  · intro e he
    cases he
  · intro site t v he
    cases he
  · intro t he
    cases he
  · intro site t he
    cases he
  · intro row hr
    cases hr
  · exact List.nodup_nil
  · intro id hid
    cases hid

theorem StepCore_seen_ok (env : Env) (mf : Int) (s : JState) (plid : String)
    (h : WfT env s) :
    StepCore env mf s (.ok { s with seen := plid :: s.seen }) := by
  refine ⟨Nat.le_refl _, h, fun x hx => List.mem_cons_of_mem _ hx, [], [], [],
    (List.append_nil _).symm, (List.append_nil _).symm,
    (List.append_nil _).symm, ?_, ?_, ?_, ?_, ?_, ?_, ?_, rfl⟩
  · intro e he
    cases he
  · intro site t v he
    cases he
  · intro t he
    cases he
  · intro site t he
    cases he
  · intro row hr
    cases hr
  · exact List.nodup_nil
  · intro id hid
    cases hid

theorem StepCore_seen_error (env : Env) (mf : Int) (s : JState) (plid : String)
    (h : WfT env s) :
    StepCore env mf s (.error { s with seen := plid :: s.seen }) := by
  refine ⟨Nat.le_refl _, h, fun x hx => List.mem_cons_of_mem _ hx, [], [], [],
    (List.append_nil _).symm, (List.append_nil _).symm,
    (List.append_nil _).symm, ?_, ?_, ?_, ?_, ?_, ?_, ?_, rfl⟩
  · intro e he
    cases he
  · intro site t v he
    cases he
  · intro t he
    cases he
  · intro site t he
    cases he
  · intro row hr
    cases hr
  · exact List.nodup_nil
  · intro id hid
    cases hid

/-- A step that only adds benign trace events (no flag observation, no
append, no status or results write). -/
theorem StepCore_pure (env : Env) (mf : Int) (s : JState) (es : List Ev)
    (h : WfT env s)
    (hes : ∀ e ∈ es, workerEv e = true ∧ (∀ site t v, e ≠ Ev.obs site t v) ∧
      (∀ u, e ≠ Ev.append u)) :
    StepCore env mf s (.ok { s with trace := s.trace ++ es }) := by
  refine ⟨Nat.le_refl _, ?_, fun x hx => hx, es, [], [], rfl,
    (List.append_nil _).symm, (List.append_nil _).symm, ?_, ?_, ?_, ?_, ?_,
    ?_, ?_, rfl⟩
  · obtain ⟨hobs, happ⟩ := h
    constructor
    · intro site t v hmem
      rcases List.mem_append.mp hmem with hm | hm
      · exact hobs site t v hm
      · exact absurd rfl ((hes _ hm).2.1 site t v)
    · intro t hmem
      rcases List.mem_append.mp hmem with hm | hm
      · exact happ t hm
      · exact absurd rfl ((hes _ hm).2.2 t)
  · intro e he
    exact (hes e he).1
  · intro site t v he
    exact absurd rfl ((hes _ he).2.1 site t v)
  · intro t he
    exact absurd rfl ((hes _ he).2.2 t)
  · intro site t he
    exact absurd rfl ((hes _ he).2.1 site t true)
  · intro row hr
    cases hr
  · exact List.nodup_nil
  · intro id hid
    cases hid

/-- Reading the cancellation flag is a worker step. -/
theorem StepCore_read (env : Env) (mf : Int) (site : Site) (s : JState)
    (h : WfT env s) :
    StepCore env mf s (.ok (readCancel env site s).2) := by
  refine ⟨Nat.le_succ _, WfT_readCancel env site s h, fun x hx => hx,
    [.obs site s.clock (env.cancel s.clock)], [], [], rfl,
    (List.append_nil _).symm, (List.append_nil _).symm, ?_, ?_, ?_, ?_, ?_,
    ?_, ?_, rfl⟩
  · intro e he
    rw [List.mem_singleton] at he
    subst he
    rfl
  · intro site2 t v he
    rw [List.mem_singleton] at he
    rw [Ev.obs.injEq] at he
    omega
  · intro t he
    rw [List.mem_singleton] at he
    cases he
  · intro site2 t he
    refine ⟨rfl, ?_, fun _ => ?_⟩
    · rw [appendsAfter_of_no_append]
      · omega
      · intro u hu
        rw [List.mem_singleton] at hu
        cases hu
    · rw [appendsAfter_of_no_append]
      intro u hu
      rw [List.mem_singleton] at hu
      cases hu
  · intro row hr
    cases hr
  · exact List.nodup_nil
  · intro id hid
    cases hid

/-- Sequential composition of worker steps when the first step observed no
set cancellation flag. -/
theorem StepCore_glueA (env : Env) (mf : Int) (s s1 : JState)
    (r : Except JState JState) (hwf : WfT env s)
    (h1 : StepCore env mf s (.ok s1))
    (hno : ∀ site t, Ev.obs site t true ∈ s1.trace →
      Ev.obs site t true ∈ s.trace)
    (h2 : StepCore env mf s1 r) : StepCore env mf s r := by
  obtain ⟨hc1, hwf1, hs1, ext1, nrs1, nids1, htr1, hres1, hids1, hwk1, hobs1,
    happ1, htrue1, hfol1, hnd1, hfresh1, hlen1⟩ := h1
  obtain ⟨hc2, hwf2, hs2, ext2, nrs2, nids2, htr2, hres2, hids2, hwk2, hobs2,
    happ2, htrue2, hfol2, hnd2, hfresh2, hlen2⟩ := h2
  simp only [outState] at hc1 hwf1 hs1 htr1 hres1 hids1 htrue1 hfresh1
  refine ⟨Nat.le_trans hc1 hc2, hwf2, fun x hx => hs2 x (hs1 x hx),
    ext1 ++ ext2, nrs1 ++ nrs2, nids1 ++ nids2, ?_, ?_, ?_, ?_, ?_, ?_, ?_,
    ?_, ?_, ?_, ?_⟩
  · rw [htr2, htr1, List.append_assoc]
  · rw [hres2, hres1, List.append_assoc]
  · rw [hids2, hids1, List.append_assoc]
  · intro e he
    rcases List.mem_append.mp he with hm | hm
    · exact hwk1 e hm
    · exact hwk2 e hm
  · intro site t v he
    rcases List.mem_append.mp he with hm | hm
    · exact hobs1 site t v hm
    · exact Nat.le_trans hc1 (hobs2 site t v hm)
  · intro t he
    rcases List.mem_append.mp he with hm | hm
    · exact happ1 t hm
    · exact Nat.le_trans hc1 (happ2 t hm)
  · intro site t he
    rcases List.mem_append.mp he with hm | hm
    · have hts : Ev.obs site t true ∈ s1.trace := by
        rw [htr1]
        exact List.mem_append.mpr (Or.inr hm)
      have hin : Ev.obs site t true ∈ s.trace := hno site t hts
      have hlt : t < s.clock := (hwf.1 site t true hin).1
      have hge : s.clock ≤ t := hobs1 site t true hm
      omega
    · obtain ⟨hok2, hcnt2, hws2⟩ := htrue2 site t hm
      have hext1zero : appendsAfter t ext1 = 0 := by
        apply appendsAfter_of_le
        intro u hu
        have hle : u ≤ s1.clock := by
          apply hwf1.2 u
          rw [htr1]
          exact List.mem_append.mpr (Or.inr hu)
        have hget : s1.clock ≤ t := hobs2 site t true hm
        omega
      refine ⟨hok2, ?_, fun hws => ?_⟩
      · rw [appendsAfter_append, hext1zero, Nat.zero_add]
        exact hcnt2
      · rw [appendsAfter_append, hext1zero, Nat.zero_add]
        exact hws2 hws
  · intro row hr
    rcases List.mem_append.mp hr with hm | hm
    · exact hfol1 row hm
    · exact hfol2 row hm
  · rw [List.nodup_append]
    refine ⟨hnd1, hnd2, ?_⟩
    intro id hid1 hid2
    exact (hfresh2 id hid2).2 ((hfresh1 id hid1).1)
  · intro id hid
    rcases List.mem_append.mp hid with hm | hm
    · exact ⟨hs2 id ((hfresh1 id hm).1), (hfresh1 id hm).2⟩
    · exact ⟨(hfresh2 id hm).1, fun hin => (hfresh2 id hm).2 (hs1 id hin)⟩
  · rw [List.length_append, List.length_append, hlen1, hlen2]

/-- Sequential composition of worker steps: any observation of a set flag in
the first step entails (via monotonicity) that the flag is set when the
second step starts, so the second step is covered by its `Kills`
property. -/
theorem StepCore_glueB (env : Env) (mf : Int) (s s1 : JState)
    (r : Except JState JState) (mono : CancelMono env.cancel)
    (h1 : StepCore env mf s (.ok s1))
    (h2 : StepCore env mf s1 r)
    (h2k : Kills env s1 r) : StepCore env mf s r := by
  obtain ⟨hc1, hwf1, hs1, ext1, nrs1, nids1, htr1, hres1, hids1, hwk1, hobs1,
    happ1, htrue1, hfol1, hnd1, hfresh1, hlen1⟩ := h1
  obtain ⟨hc2, hwf2, hs2, ext2, nrs2, nids2, htr2, hres2, hids2, hwk2, hobs2,
    happ2, htrue2, hfol2, hnd2, hfresh2, hlen2⟩ := h2
  simp only [outState] at hc1 hwf1 hs1 htr1 hres1 hids1 htrue1 hfresh1
  refine ⟨Nat.le_trans hc1 hc2, hwf2, fun x hx => hs2 x (hs1 x hx),
    ext1 ++ ext2, nrs1 ++ nrs2, nids1 ++ nids2, ?_, ?_, ?_, ?_, ?_, ?_, ?_,
    ?_, ?_, ?_, ?_⟩
  · rw [htr2, htr1, List.append_assoc]
  · rw [hres2, hres1, List.append_assoc]
  · rw [hids2, hids1, List.append_assoc]
  · intro e he
    rcases List.mem_append.mp he with hm | hm
    · exact hwk1 e hm
    · exact hwk2 e hm
  · intro site t v he
    rcases List.mem_append.mp he with hm | hm
    · exact hobs1 site t v hm
    · exact Nat.le_trans hc1 (hobs2 site t v hm)
  · intro t he
    rcases List.mem_append.mp he with hm | hm
    · exact happ1 t hm
    · exact Nat.le_trans hc1 (happ2 t hm)
  · intro site t he
    rcases List.mem_append.mp he with hm | hm
    · obtain ⟨hok1, hcnt1, hws1⟩ := htrue1 site t hm
      have hts : Ev.obs site t true ∈ s1.trace := by
        rw [htr1]
        exact List.mem_append.mpr (Or.inr hm)
      have hset : env.cancel s1.clock = true :=
        mono t s1.clock (Nat.le_of_lt (hwf1.1 site t true hts).1)
          (hwf1.1 site t true hts).2
      obtain ⟨hok2, hnoapp2⟩ := h2k hset
      have hext2zero : appendsAfter t ext2 = 0 := by
        apply appendsAfter_of_no_append
        intro u hu
        exact hnoapp2 ext2 htr2 u hu
      refine ⟨hok2, ?_, fun hws => ?_⟩
      · rw [appendsAfter_append, hext2zero, Nat.add_zero]
        exact hcnt1
      · rw [appendsAfter_append, hext2zero, Nat.add_zero]
        exact hws1 hws
    · obtain ⟨hok2, hcnt2, hws2⟩ := htrue2 site t hm
      have hext1zero : appendsAfter t ext1 = 0 := by
        apply appendsAfter_of_le
        intro u hu
        have hle : u ≤ s1.clock := by
          apply hwf1.2 u
          rw [htr1]
          exact List.mem_append.mpr (Or.inr hu)
        have hget : s1.clock ≤ t := hobs2 site t true hm
        omega
      refine ⟨hok2, ?_, fun hws => ?_⟩
      · rw [appendsAfter_append, hext1zero, Nat.zero_add]
        exact hcnt2
      · rw [appendsAfter_append, hext1zero, Nat.zero_add]
        exact hws2 hws
  · intro row hr
    rcases List.mem_append.mp hr with hm | hm
    · exact hfol1 row hm
    · exact hfol2 row hm
  · rw [List.nodup_append]
    refine ⟨hnd1, hnd2, ?_⟩
    intro id hid1 hid2
    exact (hfresh2 id hid2).2 ((hfresh1 id hid1).1)
  · intro id hid
    rcases List.mem_append.mp hid with hm | hm
    · exact ⟨hs2 id ((hfresh1 id hm).1), (hfresh1 id hm).2⟩
    · exact ⟨(hfresh2 id hm).1, fun hin => (hfresh2 id hm).2 (hs1 id hin)⟩
  · rw [List.length_append, List.length_append, hlen1, hlen2]

theorem ext_of_self_append {α : Type} (a b : List α) (h : a = a ++ b) :
    b = [] := by
  have hlen := congrArg List.length h
  rw [List.length_append] at hlen
  have : b.length = 0 := by omega
  exact List.eq_nil_of_length_eq_zero this

theorem Kills_pure_pre (env : Env) (s s' : JState) (es : List Ev)
    (r : Except JState JState)
    (htr : s'.trace = s.trace ++ es) (hclock : s'.clock = s.clock)
    (hes : ∀ u, Ev.append u ∉ es)
    (hext : ∃ ext2, (outState r).trace = s'.trace ++ ext2)
    (hk : Kills env s' r) : Kills env s r := by
  intro hc
  have hc' : env.cancel s'.clock = true := by
    rw [hclock]
    exact hc
  obtain ⟨hok, hnoapp⟩ := hk hc'
  refine ⟨hok, ?_⟩
  intro ext htrext u hu
  obtain ⟨ext2, htr2⟩ := hext
  have heq : s.trace ++ ext = s.trace ++ (es ++ ext2) := by
    rw [← htrext, htr2, htr, List.append_assoc]
  have hext_eq : ext = es ++ ext2 := List.append_cancel_left heq
  rw [hext_eq] at hu
  rcases List.mem_append.mp hu with hm | hm
  · exact hes u hm
  · exact hnoapp ext2 htr2 u hm

theorem runRqs_step (env : Env) (o : String) :
    ∀ (rqs : List String) (s : JState) (acc : List Contact), WfT env s →
      s.clock ≤ (runRqs env o rqs s acc).2.clock ∧
      WfT env (runRqs env o rqs s acc).2 ∧
      (runRqs env o rqs s acc).2.seen = s.seen ∧
      (runRqs env o rqs s acc).2.results = s.results ∧
      (runRqs env o rqs s acc).2.rowIds = s.rowIds ∧
      ∃ ext, (runRqs env o rqs s acc).2.trace = s.trace ++ ext ∧
        (∀ e ∈ ext, ∃ t v, e = Ev.obs Site.websearch t v) ∧
        (∀ site t v, Ev.obs site t v ∈ ext → s.clock ≤ t) := by
  intro rqs
  induction rqs with
  | nil =>
    intro s acc h
    refine ⟨Nat.le_refl _, h, rfl, rfl, rfl, [], (List.append_nil _).symm,
      ?_, ?_⟩
    · intro e he
      cases he
    · intro site t v he
      cases he
  | cons rq rest ih =>
    intro s acc h
    simp only [runRqs]
    by_cases hv : (readCancel env Site.websearch s).1 = true
    · rw [if_pos hv]
      refine ⟨Nat.le_succ _, WfT_readCancel env Site.websearch s h, rfl, rfl,
        rfl, [Ev.obs Site.websearch s.clock (env.cancel s.clock)], rfl,
        ?_, ?_⟩
      · intro e he
        rw [List.mem_singleton] at he
        exact ⟨s.clock, env.cancel s.clock, he⟩
      · intro site t v he
        rw [List.mem_singleton] at he
        rw [Ev.obs.injEq] at he
        omega
    · rw [if_neg hv]
      obtain ⟨hc, hwf, hsn, hrs, hid, ext, htr, hshape, hstamp⟩ :=
        ih (readCancel env Site.websearch s).2
          (acc ++ (env.ddg rq).filterMap (linkContact env o))
          (WfT_readCancel env Site.websearch s h)
      refine ⟨Nat.le_trans (Nat.le_succ _) hc, hwf, hsn, hrs, hid,
        Ev.obs Site.websearch s.clock (env.cancel s.clock) :: ext, ?_, ?_, ?_⟩
      · rw [htr]
        have hrc : (readCancel env Site.websearch s).2.trace =
            s.trace ++ [Ev.obs Site.websearch s.clock (env.cancel s.clock)] :=
          rfl
        rw [hrc, List.append_assoc]
        rfl
      · intro e he
        rcases List.mem_cons.mp he with hm | hm
        · exact ⟨s.clock, env.cancel s.clock, hm⟩
        · exact hshape e hm
      · intro site t v he
        rcases List.mem_cons.mp he with hm | hm
        · rw [Ev.obs.injEq] at hm
          omega
        · exact Nat.le_trans (Nat.le_succ _) (hstamp site t v hm)

theorem appendsAfter_pair_le_one (t u : Nat) :
    appendsAfter t [Ev.append u, Ev.setLast] ≤ 1 := by
  have h1 : appendsAfter t [Ev.append u, Ev.setLast] =
      appendsAfter t [Ev.append u] + appendsAfter t [Ev.setLast] :=
    appendsAfter_append t [Ev.append u] [Ev.setLast]
  have h2 : appendsAfter t [Ev.setLast] = 0 := by
    apply appendsAfter_of_no_append
    intro v hv
    rw [List.mem_singleton] at hv
    cases hv
  have h3 : appendsAfter t [Ev.append u] ≤ 1 := by
    have := List.countP_le_length
      (p := fun e => match e with
        | Ev.append u2 => decide (t < u2)
        | _ => false) (l := [Ev.append u])
    simpa [appendsAfter] using this
  omega

theorem StepCore_append_row (env : Env) (mf : Int) (s : JState)
    (plid owner : String) (rqs : List String) (rowf : List Contact → Row)
    (hwf : WfT env s) (hseen : plid ∉ s.seen)
    (hfol : ∀ cs, mf ≤ (rowf cs).followers) :
    StepCore env mf s (.ok
      { (runRqs env owner rqs { s with seen := plid :: s.seen } []).2 with
        results :=
          (runRqs env owner rqs { s with seen := plid :: s.seen } []).2.results
            ++ [rowf (runRqs env owner rqs
                  { s with seen := plid :: s.seen } []).1],
        rowIds :=
          (runRqs env owner rqs { s with seen := plid :: s.seen } []).2.rowIds
            ++ [plid],
        trace :=
          (runRqs env owner rqs { s with seen := plid :: s.seen } []).2.trace
            ++ [.append (runRqs env owner rqs
                  { s with seen := plid :: s.seen } []).2.clock,
                .setLast] }) := by
  have hwf1 : WfT env { s with seen := plid :: s.seen } := hwf
  obtain ⟨hc2, hwf2, hsn2, hrs2, hid2, rqExt, htr2, hshape2, hstamp2⟩ :=
    runRqs_step env owner rqs { s with seen := plid :: s.seen } [] hwf1
  set out := runRqs env owner rqs { s with seen := plid :: s.seen } []
    with houtdef
  have hs1tr : ({ s with seen := plid :: s.seen } : JState).trace = s.trace :=
    rfl
  have hs1ck : ({ s with seen := plid :: s.seen } : JState).clock = s.clock :=
    rfl
  rw [hs1tr] at htr2
  rw [hs1ck] at hc2 hstamp2
  refine ⟨hc2, ?_, ?_, rqExt ++ [Ev.append out.2.clock, Ev.setLast],
    [rowf out.1], [plid], ?_, ?_, ?_, ?_, ?_, ?_, ?_, ?_, ?_, ?_, rfl⟩
  · -- WfT of the final state
    constructor
    · intro site t v hmem
      rcases List.mem_append.mp hmem with hm | hm
      · exact hwf2.1 site t v hm
      · rcases List.mem_cons.mp hm with hm2 | hm2
        · cases hm2
        · rw [List.mem_singleton] at hm2
          cases hm2
    · intro t hmem
      rcases List.mem_append.mp hmem with hm | hm
      · exact Nat.le_trans (hwf2.2 t hm) (Nat.le_refl _)
      · rcases List.mem_cons.mp hm with hm2 | hm2
        · rw [Ev.append.injEq] at hm2
          subst hm2
          show out.2.clock ≤ out.2.clock
          exact Nat.le_refl _
        · rw [List.mem_singleton] at hm2
          cases hm2
  · -- seen grows
    intro x hx
    show x ∈ out.2.seen
    rw [hsn2]
    exact List.mem_cons_of_mem _ hx
  · -- trace decomposition
    show out.2.trace ++ [Ev.append out.2.clock, Ev.setLast] =
      s.trace ++ (rqExt ++ [Ev.append out.2.clock, Ev.setLast])
    rw [htr2, List.append_assoc]
  · -- results decomposition
    show out.2.results ++ [rowf out.1] = s.results ++ [rowf out.1]
    rw [hrs2]
  · -- rowIds decomposition
    show out.2.rowIds ++ [plid] = s.rowIds ++ [plid]
    rw [hid2]
  · -- worker events only
    intro e he
    rcases List.mem_append.mp he with hm | hm
    · obtain ⟨t, v, rfl⟩ := hshape2 e hm
      rfl
    · rcases List.mem_cons.mp hm with hm2 | hm2
      · subst hm2
        rfl
      · rw [List.mem_singleton] at hm2
        subst hm2
        rfl
  · -- observation stamps
    intro site t v he
    rcases List.mem_append.mp he with hm | hm
    · exact hstamp2 site t v hm
    · rcases List.mem_cons.mp hm with hm2 | hm2
      · cases hm2
      · rw [List.mem_singleton] at hm2
        cases hm2
  · -- append stamps
    intro t he
    rcases List.mem_append.mp he with hm | hm
    · obtain ⟨t2, v2, heq⟩ := hshape2 _ hm
      cases heq
    · rcases List.mem_cons.mp hm with hm2 | hm2
      · rw [Ev.append.injEq] at hm2
        subst hm2
        exact hc2
      · rw [List.mem_singleton] at hm2
        cases hm2
  · -- observations of a set flag
    intro site t he
    rcases List.mem_append.mp he with hm | hm
    · obtain ⟨t2, v2, heq⟩ := hshape2 _ hm
      rw [Ev.obs.injEq] at heq
      obtain ⟨hsite, ht2, hv2⟩ := heq
      refine ⟨rfl, ?_, fun hws => absurd hsite hws⟩
      rw [appendsAfter_append]
      have hz : appendsAfter t rqExt = 0 := by
        apply appendsAfter_of_no_append
        intro u hu
        obtain ⟨t3, v3, heq3⟩ := hshape2 _ hu
        cases heq3
      rw [hz, Nat.zero_add]
      exact appendsAfter_pair_le_one t out.2.clock
    · rcases List.mem_cons.mp hm with hm2 | hm2
      · cases hm2
      · rw [List.mem_singleton] at hm2
        cases hm2
  · -- follower filter
    intro row hr
    rw [List.mem_singleton] at hr
    subst hr
    exact hfol out.1
  · -- nodup
    exact List.nodup_singleton plid
  · -- fresh ids
    intro id hid
    rw [List.mem_singleton] at hid
    subst hid
    constructor
    · show id ∈ out.2.seen
      rw [hsn2]
      exact List.mem_cons_self _ _
    · exact hseen

theorem procItem_step (env : Env) (q : String) (mf : Int) (it : SItem)
    (s : JState) (hwf : WfT env s) :
    StepCore env mf s (procItem env q mf it s) := by
  cases it with
  | notDict => exact StepCore_refl env mf s hwf
  | dict oid =>
    cases oid with
    | none => exact StepCore_refl env mf s hwf
    | some plid =>
      simp only [procItem]
      by_cases hempty : plid = ""
      · rw [if_pos hempty]
        exact StepCore_refl env mf s hwf
      · rw [if_neg hempty]
        by_cases hseen : plid ∈ s.seen
        · rw [if_pos hseen]
          exact StepCore_refl env mf s hwf
        · rw [if_neg hseen]
          split
          · exact StepCore_seen_ok env mf s plid hwf
          · rename_i det heq
            split
            · exact StepCore_seen_error env mf s plid hwf
            · rename_i followers heq2
              by_cases hflt : followers < mf
              · rw [if_pos hflt]
                exact StepCore_seen_ok env mf s plid hwf
              · rw [if_neg hflt]
                exact StepCore_append_row env mf s plid (ownerNameOf det)
                  ([ownerNameOf det ++
                      " contact OR kontakt OR impressum email submit music",
                    det.name ++
                      " contact OR kontakt OR submit music email"].take 2)
                  (fun cs =>
                    { genre := pyReplace q " playlist" "",
                      playlist_name := det.name, playlist_url := det.plUrl,
                      followers := followers,
                      owner_name := ownerNameOf det,
                      owner_id := det.ownerId, owner_url := det.ownerUrl,
                      contacts :=
                        descContacts det.description (ownerNameOf det) ++ cs })
                  hwf hseen (fun _ => Int.not_lt.mp hflt)

theorem Kills_ok_self (env : Env) (s : JState) : Kills env s (.ok s) := by
  intro hc
  refine ⟨rfl, ?_⟩
  intro ext htr u hu
  have hext : ext = [] := ext_of_self_append s.trace ext htr
  subst hext
  cases hu

theorem Kills_read_break (env : Env) (site : Site) (s : JState) :
    Kills env s (.ok (readCancel env site s).2) := by
  intro hc
  refine ⟨rfl, ?_⟩
  intro ext htr u hu
  have hrc : (outState (Except.ok (readCancel env site s).2)).trace =
      s.trace ++ [Ev.obs site s.clock (env.cancel s.clock)] := rfl
  rw [hrc] at htr
  have hext : [Ev.obs site s.clock (env.cancel s.clock)] = ext :=
    List.append_cancel_left htr
  rw [← hext] at hu
  rw [List.mem_singleton] at hu
  cases hu

theorem readCancel_no_true_obs (env : Env) (site : Site) (s : JState)
    (hvf : env.cancel s.clock = false) :
    ∀ site2 t, Ev.obs site2 t true ∈ (readCancel env site s).2.trace →
      Ev.obs site2 t true ∈ s.trace := by
  intro site2 t hmem
  have hrc : (readCancel env site s).2.trace =
      s.trace ++ [Ev.obs site s.clock (env.cancel s.clock)] := rfl
  rw [hrc, hvf] at hmem
  rcases List.mem_append.mp hmem with hm | hm
  · exact hm
  · rw [List.mem_singleton] at hm
    rw [Ev.obs.injEq] at hm
    exact absurd hm.2.2 (by decide)

theorem loopItems_step (env : Env) (q : String) (mf : Int)
    (mono : CancelMono env.cancel) :
    ∀ (l : List SItem) (s : JState), WfT env s →
      StepCore env mf s (loopItems env q mf l s) ∧
      Kills env s (loopItems env q mf l s) := by
  intro l
  induction l with
  | nil =>
    intro s h
    exact ⟨StepCore_refl env mf s h, Kills_ok_self env s⟩
  | cons it rest ih =>
    intro s h
    simp only [loopItems]
    by_cases hv : (readCancel env Site.item s).1 = true
    · rw [if_pos hv]
      exact ⟨StepCore_read env mf Site.item s h, Kills_read_break env _ s⟩
    · rw [if_neg hv]
      have hvf : env.cancel s.clock = false := by
        cases hcv : env.cancel s.clock
        · rfl
        · exact absurd hcv hv
      have hno := readCancel_no_true_obs env Site.item s hvf
      constructor
      · split
        · rename_i s1 hproc
          have hp := procItem_step env q mf it (readCancel env Site.item s).2
            (WfT_readCancel env Site.item s h)
          rw [hproc] at hp
          exact StepCore_glueA env mf s (readCancel env Site.item s).2 _ h
            (StepCore_read env mf Site.item s h) hno hp
        · rename_i s1 hproc
          have hp := procItem_step env q mf it (readCancel env Site.item s).2
            (WfT_readCancel env Site.item s h)
          rw [hproc] at hp
          obtain ⟨hcore1, hkills1⟩ := ih s1 hp.2.1
          exact StepCore_glueA env mf s (readCancel env Site.item s).2 _ h
            (StepCore_read env mf Site.item s h) hno
            (StepCore_glueB env mf (readCancel env Site.item s).2 s1 _ mono
              hp hcore1 hkills1)
      · intro hc
        exact absurd (show (readCancel env Site.item s).1 = true from hc) hv

theorem loopPages_step (env : Env) (q : String) (mf : Int)
    (mono : CancelMono env.cancel) :
    ∀ (pages : List Nat) (s : JState), WfT env s →
      StepCore env mf s (loopPages env q mf pages s) ∧
      Kills env s (loopPages env q mf pages s) := by
  intro pages
  induction pages with
  | nil =>
    intro s h
    exact ⟨StepCore_refl env mf s h, Kills_ok_self env s⟩
  | cons p ps ih =>
    intro s h
    simp only [loopPages]
    by_cases hv : (readCancel env Site.page s).1 = true
    · rw [if_pos hv]
      exact ⟨StepCore_read env mf Site.page s h, Kills_read_break env _ s⟩
    · rw [if_neg hv]
      have hvf : env.cancel s.clock = false := by
        cases hcv : env.cancel s.clock
        · rfl
        · exact absurd hcv hv
      have hno := readCancel_no_true_obs env Site.page s hvf
      have hwfr := WfT_readCancel env Site.page s h
      constructor
      · split
        · -- search failed: log and break
          exact StepCore_glueA env mf s (readCancel env Site.page s).2 _ h
            (StepCore_read env mf Site.page s h) hno
            (StepCore_pure env mf (readCancel env Site.page s).2 [Ev.logEv]
              hwfr (by
                intro e he
                rw [List.mem_singleton] at he
                subst he
                exact ⟨rfl, fun site t v hcon => Ev.noConfusion hcon,
                  fun u hcon => Ev.noConfusion hcon⟩))
        · rename_i items hsearch
          by_cases hempty : items.isEmpty = true
          · rw [if_pos hempty]
            exact StepCore_read env mf Site.page s h
          · rw [if_neg hempty]
            split
            · rename_i s1 hitems
              obtain ⟨hci, hki⟩ := loopItems_step env q mf mono items
                (readCancel env Site.page s).2 hwfr
              rw [hitems] at hci
              exact StepCore_glueA env mf s (readCancel env Site.page s).2 _ h
                (StepCore_read env mf Site.page s h) hno hci
            · rename_i s1 hitems
              obtain ⟨hci, hki⟩ := loopItems_step env q mf mono items
                (readCancel env Site.page s).2 hwfr
              rw [hitems] at hci
              obtain ⟨hcp, hkp⟩ := ih s1 hci.2.1
              exact StepCore_glueA env mf s (readCancel env Site.page s).2 _ h
                (StepCore_read env mf Site.page s h) hno
                (StepCore_glueB env mf (readCancel env Site.page s).2 s1 _
                  mono hci hcp hkp)
      · intro hc
        exact absurd (show (readCancel env Site.page s).1 = true from hc) hv

theorem loopGenres_step (env : Env) (mf : Int)
    (mono : CancelMono env.cancel) :
    ∀ (qs : List String) (s : JState), WfT env s →
      StepCore env mf s (loopGenres env mf qs s) ∧
      Kills env s (loopGenres env mf qs s) := by
  intro qs
  induction qs with
  | nil =>
    intro s h
    exact ⟨StepCore_refl env mf s h, Kills_ok_self env s⟩
  | cons qq rest ih =>
    intro s h
    simp only [loopGenres]
    by_cases hv : (readCancel env Site.genre s).1 = true
    · rw [if_pos hv]
      exact ⟨StepCore_read env mf Site.genre s h, Kills_read_break env _ s⟩
    · rw [if_neg hv]
      have hvf : env.cancel s.clock = false := by
        cases hcv : env.cancel s.clock
        · rfl
        · exact absurd hcv hv
      have hno := readCancel_no_true_obs env Site.genre s hvf
      have hwfr := WfT_readCancel env Site.genre s h
      have hpureB := StepCore_pure env mf (readCancel env Site.genre s).2
        [Ev.logEv] hwfr (by
          intro e he
          rw [List.mem_singleton] at he
          subst he
          exact ⟨rfl, fun site t v hcon => Ev.noConfusion hcon,
            fun u hcon => Ev.noConfusion hcon⟩)
      have hwfB : WfT env { (readCancel env Site.genre s).2 with
          trace := (readCancel env Site.genre s).2.trace ++ [Ev.logEv] } :=
        hpureB.2.1
      have hnoB : ∀ site2 t, Ev.obs site2 t true ∈
          ({ (readCancel env Site.genre s).2 with
            trace := (readCancel env Site.genre s).2.trace ++ [Ev.logEv] }
              : JState).trace →
          Ev.obs site2 t true ∈ (readCancel env Site.genre s).2.trace := by
        intro site2 t hmem
        rcases List.mem_append.mp hmem with hm | hm
        · exact hm
        · rw [List.mem_singleton] at hm
          cases hm
      constructor
      · split
        · rename_i s1 hpages
          obtain ⟨hcP, hkP⟩ := loopPages_step env qq mf mono [0, 1, 2]
            { (readCancel env Site.genre s).2 with
              trace := (readCancel env Site.genre s).2.trace ++ [Ev.logEv] }
            hwfB
          rw [hpages] at hcP
          exact StepCore_glueA env mf s (readCancel env Site.genre s).2 _ h
            (StepCore_read env mf Site.genre s h) hno
            (StepCore_glueA env mf (readCancel env Site.genre s).2 _ _ hwfr
              hpureB hnoB hcP)
        · rename_i s1 hpages
          obtain ⟨hcP, hkP⟩ := loopPages_step env qq mf mono [0, 1, 2]
            { (readCancel env Site.genre s).2 with
              trace := (readCancel env Site.genre s).2.trace ++ [Ev.logEv] }
            hwfB
          rw [hpages] at hcP
          have hwf1 : WfT env s1 := hcP.2.1
          have hpureC := StepCore_pure env mf s1 [Ev.setProgress] hwf1 (by
            intro e he
            rw [List.mem_singleton] at he
            subst he
            exact ⟨rfl, fun site t v hcon => Ev.noConfusion hcon,
              fun u hcon => Ev.noConfusion hcon⟩)
          obtain ⟨hcG, hkG⟩ := ih
            { s1 with trace := s1.trace ++ [Ev.setProgress] } hpureC.2.1
          have hnoC : ∀ site2 t, Ev.obs site2 t true ∈
              ({ s1 with trace := s1.trace ++ [Ev.setProgress] }
                : JState).trace →
              Ev.obs site2 t true ∈ s1.trace := by
            intro site2 t hmem
            rcases List.mem_append.mp hmem with hm | hm
            · exact hm
            · rw [List.mem_singleton] at hm
              cases hm
          have hext0 : ∃ ext2,
              (outState (loopGenres env mf rest
                { s1 with trace := s1.trace ++ [Ev.setProgress] })).trace =
              ({ s1 with trace := s1.trace ++ [Ev.setProgress] }
                : JState).trace ++ ext2 := by
            obtain ⟨ext0, nrs0, nids0, htr0, _⟩ := hcG.2.2.2
            exact ⟨ext0, htr0⟩
          have hkills1 : Kills env s1 (loopGenres env mf rest
              { s1 with trace := s1.trace ++ [Ev.setProgress] }) :=
            Kills_pure_pre env s1
              { s1 with trace := s1.trace ++ [Ev.setProgress] }
              [Ev.setProgress] _ rfl rfl
              (fun u hu => by
                rw [List.mem_singleton] at hu
                cases hu)
              hext0 hkG
          exact StepCore_glueA env mf s (readCancel env Site.genre s).2 _ h
            (StepCore_read env mf Site.genre s h) hno
            (StepCore_glueA env mf (readCancel env Site.genre s).2 _ _ hwfr
              hpureB hnoB
              (StepCore_glueB env mf _ s1 _ mono hcP
                (StepCore_glueA env mf s1 _ _ hwf1 hpureC hnoC hcG) hkills1))
      · intro hc
        exact absurd (show (readCancel env Site.genre s).1 = true from hc) hv

/-! ## The assembled worker -/

theorem WfT_init (env : Env) : WfT env initJState := by
  constructor
  · intro site t v hmem
    simp [initJState] at hmem
  · intro t hmem
    simp [initJState] at hmem

theorem finalizeJob_trace (env : Env) (s : JState) :
    (finalizeJob env s).trace =
      s.trace ++
        [Ev.obs Site.finalRead s.clock (env.cancel s.clock),
         Ev.setResults s.results,
         Ev.setStatus
           (if env.cancel s.clock then Status.cancelled else Status.done),
         Ev.obs Site.finalRead (s.clock + 1) (env.cancel (s.clock + 1)),
         Ev.logEv] := by
  simp only [finalizeJob, readCancel]
  simp [List.append_assoc]

theorem finalizeJob_results (env : Env) (s : JState) :
    (finalizeJob env s).results = s.results := rfl

theorem finalizeJob_rowIds (env : Env) (s : JState) :
    (finalizeJob env s).rowIds = s.rowIds := rfl

theorem tokenOk_false_of_not (env : Env) (h : ¬ env.tokenOk = true) :
    env.tokenOk = false := by
  cases h2 : env.tokenOk
  · rfl
  · exact absurd h2 h

/-- C5: every result row of any worker run satisfies the follower threshold,
and (for a non-negative submitted threshold, which is what the submission
interface prescribes) has a non-negative follower count.  The cancellation
flag is monotone in the program: `/cancel` only ever writes `True`. -/
theorem c5_followers_threshold (env : Env) (p : Params)
    (mono : CancelMono env.cancel) (hmf : 0 ≤ p.min_followers) :
    ∀ row ∈ (outState (run_job env p)).results,
      p.min_followers ≤ row.followers ∧ 0 ≤ row.followers := by
  intro row hrow
  unfold run_job at hrow
  by_cases htok : env.tokenOk = true
  · rw [htok] at hrow
    rw [if_neg (by decide)] at hrow
    obtain ⟨hcore, _⟩ := loopGenres_step env p.min_followers mono
      (queriesOf p) initJState (WfT_init env)
    obtain ⟨_, _, _, ext, nrs, nids, _, hres, _, _, _, _, _, hfol, _, _, _⟩ :=
      hcore
    cases hG : loopGenres env p.min_followers (queriesOf p) initJState with
    | error sG =>
      rw [hG] at hrow hres
      rw [hres] at hrow
      simp only [initJState, List.nil_append] at hrow
      have h1 := hfol row hrow
      exact ⟨h1, le_trans hmf h1⟩
    | ok sG =>
      rw [hG] at hrow hres
      simp only [outState, finalizeJob_results] at hrow
      simp only [outState] at hres
      rw [hres] at hrow
      simp only [initJState, List.nil_append] at hrow
      have h1 := hfol row hrow
      exact ⟨h1, le_trans hmf h1⟩
  · rw [tokenOk_false_of_not env htok] at hrow
    rw [if_pos (by decide)] at hrow
    simp [outState, errJState] at hrow

/-- Witness for C5: in the benign run `envBase`/`pW` (threshold 5), every
produced row has at least 5 followers and a non-negative count. -/
theorem c5_followers_threshold_witness :
    0 ≤ pW.min_followers ∧
    ∀ row ∈ (outState (run_job envBase pW)).results,
      pW.min_followers ≤ row.followers ∧ 0 ≤ row.followers :=
  ⟨by decide,
   c5_followers_threshold envBase pW (fun a b hab ha => ha) (by decide)⟩

/-- C6: within one job run no playlist id is processed twice — the ghost
list of playlist ids of the appended rows has no duplicates, and it is in
step with the result list (one id per row). -/
theorem c6_unique_playlists (env : Env) (p : Params)
    (mono : CancelMono env.cancel) :
    (outState (run_job env p)).rowIds.Nodup ∧
    (outState (run_job env p)).results.length =
      (outState (run_job env p)).rowIds.length := by
  unfold run_job
  by_cases htok : env.tokenOk = true
  · rw [htok]
    rw [if_neg (by decide)]
    obtain ⟨hcore, _⟩ := loopGenres_step env p.min_followers mono
      (queriesOf p) initJState (WfT_init env)
    obtain ⟨_, _, _, ext, nrs, nids, _, hres, hids, _, _, _, _, _, hnd, _,
      hlen⟩ := hcore
    cases hG : loopGenres env p.min_followers (queriesOf p) initJState with
    | error sG =>
      rw [hG] at hres hids
      constructor
      · rw [hids]
        simpa [initJState] using hnd
      · rw [hres, hids]
        simp [initJState, hlen]
    | ok sG =>
      rw [hG] at hres hids
      simp only [outState] at hres hids ⊢
      constructor
      · rw [finalizeJob_rowIds, hids]
        simpa [initJState] using hnd
      · rw [finalizeJob_results, finalizeJob_rowIds, hres, hids]
        simp [initJState, hlen]
  · rw [tokenOk_false_of_not env htok]
    rw [if_pos (by decide)]
    constructor
    · simp [outState, errJState]
    · simp [outState, errJState]

/-- Witness for C6 at the benign run. -/
theorem c6_unique_playlists_witness :
    (outState (run_job envBase pW)).rowIds.Nodup ∧
    (outState (run_job envBase pW)).results.length =
      (outState (run_job envBase pW)).rowIds.length :=
  c6_unique_playlists envBase pW (fun a b hab ha => ha)

theorem init_no_setResults :
    ∀ rs, Ev.setResults rs ∉ initJState.trace := by
  intro rs hmem
  simp [initJState] at hmem

/-- C10: the job's visible result list is published only at worker
termination.  In every run, the job-record mutation trace satisfies: each
assignment to the results field is immediately followed by a terminal status
assignment (`pubOk`), there is at most one such assignment, and the export
of the still-empty list created at submission flattens to zero rows. -/
theorem c10_publish_at_termination (env : Env) (p : Params)
    (mono : CancelMono env.cancel) :
    pubOk (mutTrace (runTrace env p)) = true ∧
    countSetResults (runTrace env p) ≤ 1 ∧
    flatten_rows [] = [] := by
  refine ⟨?_, ?_, rfl⟩ <;>
    · unfold runTrace run_job
      by_cases htok : env.tokenOk = true
      · rw [htok]
        rw [if_neg (by decide)]
        obtain ⟨hcore, _⟩ := loopGenres_step env p.min_followers mono
          (queriesOf p) initJState (WfT_init env)
        obtain ⟨_, _, _, ext, nrs, nids, htr, _, _, hwk, _, _, _, _, _, _,
          _⟩ := hcore
        cases hG : loopGenres env p.min_followers (queriesOf p) initJState with
        | error sG =>
          rw [hG] at htr
          simp only [outState] at htr ⊢
          rw [htr]
          have hnsr : ∀ rs, Ev.setResults rs ∉ initJState.trace ++ ext := by
            intro rs hmem
            rcases List.mem_append.mp hmem with hm | hm
            · exact init_no_setResults rs hm
            · exact no_setResults_of_workerEv ext hwk rs hm
          first
          | exact pubOk_of_no_setResults _
              (fun rs => mutTrace_no_setResults _ hnsr rs)
          | · rw [countSetResults_append,
                countSetResults_of_workerEv ext hwk]
              have hcz : countSetResults initJState.trace = 0 := by decide
              omega
        | ok sG =>
          rw [hG] at htr
          simp only [outState] at htr ⊢
          rw [finalizeJob_trace, htr]
          have hnsr : ∀ rs, Ev.setResults rs ∉ initJState.trace ++ ext := by
            intro rs hmem
            rcases List.mem_append.mp hmem with hm | hm
            · exact init_no_setResults rs hm
            · exact no_setResults_of_workerEv ext hwk rs hm
          first
          | · rw [mutTrace_append]
              rw [pubOk_append_of_no_setResults _ _
                (fun rs => mutTrace_no_setResults _ hnsr rs)]
              show pubOk (mutTrace
                (Ev.obs Site.finalRead sG.clock (env.cancel sG.clock) ::
                 Ev.setResults sG.results ::
                 Ev.setStatus (if env.cancel sG.clock then Status.cancelled
                   else Status.done) ::
                 Ev.obs Site.finalRead (sG.clock + 1)
                   (env.cancel (sG.clock + 1)) :: [Ev.logEv])) = true
              cases hc : env.cancel sG.clock <;>
                simp [mutTrace, isMutEv, pubOk, isSetResultsEv,
                  Status.isTerminal, hc]
          | · rw [countSetResults_append, countSetResults_append,
                countSetResults_of_workerEv ext hwk]
              have hcz : countSetResults initJState.trace = 0 := by decide
              have hct : ∀ st2, countSetResults
                  [Ev.obs Site.finalRead sG.clock (env.cancel sG.clock),
                   Ev.setResults sG.results, Ev.setStatus st2,
                   Ev.obs Site.finalRead (sG.clock + 1)
                     (env.cancel (sG.clock + 1)), Ev.logEv] = 1 := by
                intro st2
                simp [countSetResults, List.countP_cons, List.countP_nil]
              rw [hct]
              omega
      · rw [tokenOk_false_of_not env htok]
        rw [if_pos (by decide)]
        first
        | exact (by decide :
            pubOk (mutTrace (outState (Except.ok errJState)).trace) = true)
        | exact (by decide :
            countSetResults (outState (Except.ok errJState)).trace ≤ 1)

/-- Witness for C10 at the benign run. -/
theorem c10_publish_at_termination_witness :
    pubOk (mutTrace (runTrace envBase pW)) = true ∧
    countSetResults (runTrace envBase pW) ≤ 1 ∧
    flatten_rows [] = [] :=
  c10_publish_at_termination envBase pW (fun a b hab ha => ha)

/-- C3 (amended): if the monotone cancellation flag is observed set at a
genre/page/item/web-search checkpoint with clock stamp `t`, then the run
terminates with last status write `cancelled`, at most one result row is
appended after the observation (the in-flight item's row, possible only for
the web-search checkpoint), and none at all when the observation site is the
genre, page or item checkpoint. -/
theorem c3_cancellation_observed (env : Env) (p : Params) (site : Site)
    (t : Nat) (mono : CancelMono env.cancel)
    (hsite : site = Site.genre ∨ site = Site.page ∨ site = Site.item ∨
      site = Site.websearch)
    (hobs : Ev.obs site t true ∈ runTrace env p) :
    lastStatus (runTrace env p) = some Status.cancelled ∧
    appendsAfter t (runTrace env p) ≤ 1 ∧
    (site ≠ Site.websearch → appendsAfter t (runTrace env p) = 0) := by
  have hnf : site ≠ Site.finalRead := by
    rcases hsite with rfl | rfl | rfl | rfl <;> decide
  unfold runTrace run_job at hobs ⊢
  by_cases htok : env.tokenOk = true
  case neg =>
    rw [tokenOk_false_of_not env htok] at hobs
    rw [if_pos (by decide)] at hobs
    simp [outState, errJState] at hobs
  case pos =>
    rw [htok] at hobs ⊢
    rw [if_neg (by decide)] at hobs ⊢
    obtain ⟨hcore, _⟩ := loopGenres_step env p.min_followers mono
      (queriesOf p) initJState (WfT_init env)
    obtain ⟨hck, hwfG, hsn, ext, nrs, nids, htr, hres, hids, hwk, hostamp,
      hastamp, htrue, hfol, hnd, hfresh, hlen⟩ := hcore
    cases hG : loopGenres env p.min_followers (queriesOf p) initJState with
    | error sG =>
      rw [hG] at hobs htr htrue
      simp only [outState] at hobs htr htrue
      rw [htr] at hobs
      rcases List.mem_append.mp hobs with hm | hm
      · simp [initJState] at hm
      · have hfalse := (htrue site t hm).1
        simp [isOkE] at hfalse
    | ok sG =>
      rw [hG] at hobs htr htrue hwfG
      simp only [outState] at hobs htr htrue hwfG ⊢
      rw [finalizeJob_trace] at hobs ⊢
      rcases List.mem_append.mp hobs with hm | hm
      swap
      · exfalso
        simp only [List.mem_cons, List.not_mem_nil, or_false] at hm
        rcases hm with hm1 | hm1 | hm1 | hm1 | hm1 <;>
          first
          | (rw [Ev.obs.injEq] at hm1; exact hnf hm1.1)
          | exact Ev.noConfusion hm1
      · rw [htr] at hm
        rcases List.mem_append.mp hm with hm2 | hm2
        · simp [initJState] at hm2
        · obtain ⟨-, hcnt, hws⟩ := htrue site t hm2
          have hwfpair := hwfG.1 site t true (by
            rw [htr]
            exact List.mem_append.mpr (Or.inr hm2))
          have hcfin : env.cancel sG.clock = true :=
            mono t sG.clock (Nat.le_of_lt hwfpair.1) hwfpair.2
          have htail0 : appendsAfter t
              [Ev.obs Site.finalRead sG.clock (env.cancel sG.clock),
               Ev.setResults sG.results,
               Ev.setStatus (if env.cancel sG.clock then Status.cancelled
                 else Status.done),
               Ev.obs Site.finalRead (sG.clock + 1)
                 (env.cancel (sG.clock + 1)),
               Ev.logEv] = 0 := by
            apply appendsAfter_of_no_append
            intro u hu
            simp at hu
          have hinit0 : appendsAfter t initJState.trace = 0 := by
            apply appendsAfter_of_no_append
            intro u hu
            simp [initJState] at hu
          refine ⟨?_, ?_, ?_⟩
          · unfold lastStatus
            rw [statusWrites_append, htr, statusWrites_append,
              statusWrites_of_workerEv ext hwk]
            have h1 : statusWrites initJState.trace = [Status.running] := by
              decide
            have h2 : statusWrites
                [Ev.obs Site.finalRead sG.clock (env.cancel sG.clock),
                 Ev.setResults sG.results,
                 Ev.setStatus (if env.cancel sG.clock then Status.cancelled
                   else Status.done),
                 Ev.obs Site.finalRead (sG.clock + 1)
                   (env.cancel (sG.clock + 1)),
                 Ev.logEv] =
                [if env.cancel sG.clock then Status.cancelled
                 else Status.done] := rfl
            rw [h1, h2, hcfin]
            simp
          · rw [appendsAfter_append, htr, appendsAfter_append, hinit0,
              htail0]
            omega
          · intro hws2
            rw [appendsAfter_append, htr, appendsAfter_append, hinit0,
              htail0, hws hws2]

/-- Witness for the amended C3 statement: under the flag that flips on at
clock 3, the web-search checkpoint of the single item observes it. -/
theorem c3_cancellation_observed_witness :
    lastStatus (runTrace envCancel3 pBase) = some Status.cancelled ∧
    appendsAfter 3 (runTrace envCancel3 pBase) ≤ 1 ∧
    (Site.websearch ≠ Site.websearch →
      appendsAfter 3 (runTrace envCancel3 pBase) = 0) :=
  c3_cancellation_observed envCancel3 pBase Site.websearch 3
    (fun t u htu hc => by
      have h3 : 3 ≤ t := of_decide_eq_true hc
      exact decide_eq_true (Nat.le_trans h3 htu))
    (Or.inr (Or.inr (Or.inr rfl)))
    (by decide)
